import Mathlib

/-!
The ImGui log sink of asap_app_imgui.

A shallow embedding of `src/main/src/ui/log/sink.cpp` (`ImGuiLogSink`: `sink_it_`, `Clear`,
the settings, the record loop of `Draw`) and of the `Font` class of
`src/main/src/ui/style/font.cpp`, followed by theorems about them.

Conventions of the embedding:

* a `std::string` is a `List Char`, one element per `char`;
* a `std::size_t` is a `Nat`; where the source converts a signed difference to
  `std::size_t` the conversion is written out as a remainder modulo `2 ^ 64`;
* a C++ exception or a null dereference is an `Except` error;
* what the file takes from other libraries (the style colours of Dear ImGui, the
  time formatting of `date`, the `NDEBUG` switch of the build) is a field of `Env`.
-/

set_option autoImplicit false

namespace asap.ui

/-! ## Data model -/

/-- The enumeration `spdlog::level::level_enum`, in its declaration order. -/
inductive level_enum where
  | trace
  | debug
  | info
  | warn
  | err
  | critical
  | off
  deriving DecidableEq, Repr

/-- The table behind `spdlog::level::to_short_c_str`: one upper-case letter per level. -/
def to_short_c_str : level_enum → List Char
  | .trace => "T".toList
  | .debug => "D".toList
  | .info => "I".toList
  | .warn => "W".toList
  | .err => "E".toList
  | .critical => "C".toList
  | .off => "O".toList

/-- The four-component colour `ImVec4`. A component holds the value of the decimal
literal written in the source. -/
structure ImVec4 where
  x : Rat
  y : Rat
  z : Rat
  w : Rat
  deriving DecidableEq

/-- The entries of `ImGuiCol_` that `sink_it_` reads. -/
inductive ImGuiCol where
  | Text
  | TextDisabled
  | NavHighlight
  deriving DecidableEq, Repr

/-- The fields of `spdlog::details::log_msg` that `sink_it_` reads. -/
structure log_msg where
  logger_name : List Char
  level : level_enum
  time : Nat
  thread_id : Nat
  payload : List Char

/-- The record `LogRecord` that is built at sink.cpp:367-373, fields in the order of
its brace initialiser. -/
structure LogRecord where
  properties_ : List Char
  source_ : List Char
  message_ : List Char
  color_range_start_ : Nat
  color_range_end_ : Nat
  color_ : ImVec4
  emphasis_ : Bool
  deriving DecidableEq

/-- The data members of `ImGuiLogSink` that sink.cpp reads and writes. -/
structure ImGuiLogSink where
  records_ : List LogRecord
  show_time_ : Bool
  show_thread_ : Bool
  show_level_ : Bool
  show_logger_ : Bool
  wrap_ : Bool
  scroll_lock_ : Bool
  scroll_to_bottom_ : Bool
  deriving DecidableEq

/-- What `sink_it_` takes from outside the repository: whether the build defines
`NDEBUG`, the text `date::format("%D %T %Z", t)` and the style colour table
`ImGui::GetStyleColorVec4`. -/
structure Env where
  NDEBUG : Bool
  date_format : Nat → List Char
  GetStyleColorVec4 : ImGuiCol → ImVec4

/-- The ways in which a member function ends without returning: `std::out_of_range`
thrown by `std::string::substr`, the dereference of a null pointer (the `color` of
`sink_it_`, the `format` table of `LoadSettings`), the read of an empty
`cpptoml::option`, or an assertion of `ASAP_ASSERT` that does not hold. -/
inductive Failure where
  | out_of_range
  | null_dereference
  | empty_option
  | assertion_failed
  deriving DecidableEq, Repr

/-- `ImGuiLogSink::COLOR_WARN` (sink.cpp:34). -/
def COLOR_WARN : ImVec4 := ⟨9 / 10, 7 / 10, 0, 1⟩

/-- `ImGuiLogSink::COLOR_ERROR` (sink.cpp:35). -/
def COLOR_ERROR : ImVec4 := ⟨1, 0, 0, 1⟩

/-! ## String primitives -/

/-- The conversion of a signed value to the 64-bit `std::size_t`. -/
def to_size_t (i : Int) : Nat := (i % 2 ^ 64).toNat

/-- Reading `*it` where `it` is `begin() + i`: the character at index `i`, and the
terminating NUL at index `size()`. -/
def char_at (s : List Char) (i : Nat) : Char := s.getD i (Char.ofNat 0)

/-- `std::string::substr(pos, count)`: throws when `pos > size()`, otherwise the
characters from `pos` on, at most `count` of them. -/
def substr (s : List Char) (pos count : Nat) : Except Failure (List Char) :=
  if pos > s.length then .error .out_of_range else .ok ((s.drop pos).take count)

/-- `std::string::substr(pos)`: the count defaults to `npos`, so everything from `pos` on
is taken. -/
def substr_from (s : List Char) (pos : Nat) : Except Failure (List Char) :=
  if pos > s.length then .error .out_of_range else .ok (s.drop pos)

/-- `std::isdigit` on a `char`, in the C locale. -/
def isdigit (c : Char) : Bool := c.isDigit

/-- The text `operator<<` writes for an unsigned integer. -/
def decimal (n : Nat) : List Char := (Nat.repr n).toList

/-! ## `ImGuiLogSink::sink_it_` -/

/-- The text written to `ostr` at sink.cpp:281-294 together with the two stream positions
read by `tellp()`: the properties string, `color_range_start` and `color_range_end`. -/
def build_properties (env : Env) (self : ImGuiLogSink) (msg : log_msg) :
    List Char × Nat × Nat :=
  let ostr : List Char := []
  let ostr := if self.show_time_ then
      ostr ++ "[".toList ++ env.date_format msg.time ++ "] ".toList else ostr
  let ostr := if self.show_thread_ then
      ostr ++ "[".toList ++ decimal msg.thread_id ++ "] ".toList else ostr
  let color_range_start := if self.show_level_ then ostr.length else 0
  let ostr := if self.show_level_ then
      ostr ++ "[".toList ++ to_short_c_str msg.level ++ "] ".toList else ostr
  let color_range_end := if self.show_level_ then ostr.length else 0
  let ostr := if self.show_logger_ then
      ostr ++ "[".toList ++ msg.logger_name ++ "] ".toList else ostr
  (ostr, color_range_start, color_range_end)

/-- The loop at sink.cpp:302, `while (skip_to != end && *skip_to != ']') ++skip_to`,
run on the characters from index `i` on: the index where it stops. -/
def scan_forward : List Char → Nat → Nat
  | [], i => i
  | c :: rest, i => if c ≠ ']' then scan_forward rest (i + 1) else i

/-- The loop at sink.cpp:307-310, started with `skip_to` at the given index: step back,
stop on a colon or on a character that is not a digit, or at `begin()`. -/
def scan_back (msg_str : List Char) : Nat → Nat
  | 0 => 0
  | i + 1 =>
    if char_at msg_str i = ':' ∨ isdigit (char_at msg_str i) = false then i
    else scan_back msg_str i

/-- The index `skip_to - msg_str.begin()` after sink.cpp:299-313. -/
def find_skip_to (msg_str : List Char) : Nat :=
  if char_at msg_str 0 = '[' then
    let skip_to := scan_forward msg_str 0
    if skip_to = msg_str.length then 0
    else
      let saved_skip_to := skip_to + 1
      let skip_to := scan_back msg_str skip_to
      if char_at msg_str skip_to = ':' then saved_skip_to + 1 else skip_to
  else 0

/-- The switch at sink.cpp:322-365: the colour pointer (`none` is `nullptr`), the two
range offsets, and the emphasis flag. -/
def select_color (env : Env) (level : level_enum) (color_range_start color_range_end : Nat) :
    Option ImVec4 × Nat × Nat × Bool :=
  match level with
  | .trace => (some (env.GetStyleColorVec4 .TextDisabled), 0, 1, false)
  | .debug => (some (env.GetStyleColorVec4 .Text), color_range_start, color_range_end, false)
  | .info =>
    (some (env.GetStyleColorVec4 .NavHighlight), color_range_start, color_range_end, false)
  | .warn => (some COLOR_WARN, 0, 1, false)
  | .err => (some COLOR_ERROR, 0, 1, false)
  | .critical => (some COLOR_ERROR, 0, 1, true)
  | .off => (none, color_range_start, color_range_end, false)

/-- Reading `*color`. -/
def deref (color : Option ImVec4) : Except Failure ImVec4 :=
  match color with
  | some c => .ok c
  | none => .error .null_dereference

/-- The member function `ImGuiLogSink::sink_it_` (sink.cpp:274-379). The steps that can
fail run in the order of the source: the `substr` for `source`, then, inside the brace
initialiser of the record, the `substr` for the message and the read of `*color`. -/
def ImGuiLogSink.sink_it_ (env : Env) (self : ImGuiLogSink) (msg : log_msg) :
    Except Failure ImGuiLogSink := do
  let props := build_properties env self msg
  let properties := props.1
  let msg_str := msg.payload
  let skip_to := find_skip_to msg_str
  let source ← if env.NDEBUG then pure [] else
    substr msg_str 1 (to_size_t ((skip_to : Int) - 0 - 3))
  let sel := select_color env msg.level props.2.1 props.2.2
  let message ← substr_from msg_str skip_to
  let color ← deref sel.1
  let record : LogRecord :=
    { properties_ := properties
      source_ := source
      message_ := message
      color_range_start_ := sel.2.1
      color_range_end_ := sel.2.2.1
      color_ := color
      emphasis_ := sel.2.2.2 }
  pure { self with records_ := self.records_ ++ [record], scroll_to_bottom_ := true }

/-- The member function `ImGuiLogSink::Clear` (sink.cpp:37-40). -/
def ImGuiLogSink.Clear (self : ImGuiLogSink) : ImGuiLogSink :=
  { self with records_ := [] }

/-- A sequence of calls of `sink_it_`, one per message, each on the sink the call before
it left; the first failure ends the sequence. -/
def sink_all (env : Env) : ImGuiLogSink → List log_msg → Except Failure ImGuiLogSink
  | self, [] => .ok self
  | self, msg :: rest =>
    match self.sink_it_ env msg with
    | .ok s => sink_all env s rest
    | .error e => .error e

/-- The properties text in the words of the specification: of the given fields, those that
are enabled, in the order given, each in brackets with a trailing space. -/
def bracketed_fields (fields : List (Bool × List Char)) : List Char :=
  ((fields.filter fun f => f.1).map fun f => "[".toList ++ f.2 ++ "] ".toList).flatten

/-! ## Settings: `LoadSettings` and `SaveSettings` -/

namespace cpptoml

/-- A value of a TOML document as `cpptoml` holds it in memory; a table is the list of
its keys and values. -/
inductive value where
  | boolean (b : Bool)
  | integer (i : Int)
  | string (s : List Char)
  | table (entries : List (String × value))
  | table_array (tables : List (List (String × value)))

/-- A `cpptoml::table`. -/
abbrev table := List (String × value)

/-- `table::insert(key, value)`: the key is bound to the value, an earlier binding of the
key is replaced. -/
def insert (t : table) (key : String) (v : value) : table :=
  (key, v) :: t.filter fun e => e.1 != key

/-- `table::contains(key)`. -/
def contains (t : table) (key : String) : Bool := (List.lookup key t).isSome

/-- `table::get_table(key)`: the table bound to the key, null when there is none. -/
def get_table (t : table) (key : String) : Option table :=
  match List.lookup key t with
  | some (.table entries) => some entries
  | _ => none

/-- `table::get_table_array(key)`: the tables of the array bound to the key, null when
there is none. -/
def get_table_array (t : table) (key : String) : Option (List table) :=
  match List.lookup key t with
  | some (.table_array tables) => some tables
  | _ => none

/-- `table::get_as<bool>(key)`: empty unless the key is bound to a boolean. -/
def get_as_bool (t : table) (key : String) : Option Bool :=
  match List.lookup key t with
  | some (.boolean b) => some b
  | _ => none

/-- `table::get_as<int>(key)`: empty unless the key is bound to an integer (taken to fit
an `int`). -/
def get_as_int (t : table) (key : String) : Option Int :=
  match List.lookup key t with
  | some (.integer i) => some i
  | _ => none

/-- `table::get_as<std::string>(key)`: empty unless the key is bound to a string. -/
def get_as_string (t : table) (key : String) : Option (List Char) :=
  match List.lookup key t with
  | some (.string s) => some s
  | _ => none

/-- Reading `*o` of a `cpptoml::option`; the value of an empty option is not set. -/
def deref_option {α : Type} (o : Option α) : Except Failure α :=
  match o with
  | some v => .ok v
  | none => .error .empty_option

end cpptoml

/-- What the settings code takes from `asap::logging::Registry`, over the state `Reg` of
the registry: the names and levels that `Registry::Loggers()` lists (a level as the
`int` under the enumeration), and the effect of `Registry::GetLogger(name).set_level`. -/
structure Registry (Reg : Type) where
  Loggers : Reg → List (List Char × Int)
  set_level : Reg → List Char → Int → Reg

/-- What `LoadSettings` finds at the path of the settings file: no file, a file on which
`cpptoml::parse_file` throws, or a file parsed to a table. -/
inductive settings_file where
  | missing
  | malformed
  | parsed (config : cpptoml.table)

/-- The warnings of `ConfigSanityChecks` (sink.cpp:386-416), in the order they are
written. -/
def ConfigSanityChecks (config : cpptoml.table) : List String :=
  (if (cpptoml.get_table_array config "loggers").isNone then
    ["missing \x27loggers\x27 in config"] else []) ++
  (match cpptoml.get_table config "format" with
   | none => ["missing \x27format\x27 in config"]
   | some format =>
     (if !cpptoml.contains format "show-time" then
       ["missing \x27format/show-time\x27 in config"] else []) ++
     (if !cpptoml.contains format "show-thread" then
       ["missing \x27format/show-thread\x27 in config"] else []) ++
     (if !cpptoml.contains format "show-logger" then
       ["missing \x27format/show-logger\x27 in config"] else []) ++
     (if !cpptoml.contains format "show-level" then
       ["missing \x27format/show-level\x27 in config"] else [])) ++
  (if !cpptoml.contains config "scroll-lock" then
    ["missing \x27scroll-lock\x27 in config"] else []) ++
  (if !cpptoml.contains config "soft-wrap" then
    ["missing \x27soft-wrap\x27 in config"] else [])

/-- The loop at sink.cpp:442-450 over the tables of the `loggers` array. -/
def load_loggers {Reg : Type} (api : Registry Reg) :
    Reg → List cpptoml.table → Except Failure Reg
  | reg, [] => .ok reg
  | reg, logger_settings :: rest =>
    match cpptoml.deref_option (cpptoml.get_as_string logger_settings "name") with
    | .error e => .error e
    | .ok name =>
      match cpptoml.deref_option (cpptoml.get_as_int logger_settings "level") with
      | .error e => .error e
      | .ok level => load_loggers api (api.set_level reg name level) rest

/-- One of the guarded assignments at sink.cpp:455-474: when the table has the key, the
boolean bound to it is read and stored by `set`. -/
def load_bool (table : cpptoml.table) (key : String) (set : Bool → ImGuiLogSink)
    (self : ImGuiLogSink) : Except Failure ImGuiLogSink :=
  if cpptoml.contains table key then
    match cpptoml.deref_option (cpptoml.get_as_bool table key) with
    | .ok b => .ok (set b)
    | .error e => .error e
  else .ok self

/-- The member function `ImGuiLogSink::LoadSettings` (sink.cpp:419-476) on the sink and
the logger registry. What it writes to the log is left out: a log message can reach the
sink only through `sink_it_`, which touches `records_` and `scroll_to_bottom_` alone. -/
def ImGuiLogSink.LoadSettings {Reg : Type} (api : Registry Reg) (self : ImGuiLogSink)
    (reg : Reg) (file : settings_file) : Except Failure (ImGuiLogSink × Reg) :=
  match file with
  | .missing => .ok (self, reg)
  | .malformed => .ok (self, reg)
  | .parsed config => do
    let reg ← match cpptoml.get_table_array config "loggers" with
      | some loggers => load_loggers api reg loggers
      | none => pure reg
    let format := cpptoml.get_table config "format"
    let self ← match format with
      | some format => do
        let self ← load_bool format "show-time" (fun b => { self with show_time_ := b }) self
        let self ← load_bool format "show-thread" (fun b => { self with show_thread_ := b }) self
        let self ← load_bool format "show-logger" (fun b => { self with show_logger_ := b }) self
        load_bool format "show-level" (fun b => { self with show_level_ := b }) self
      | none => pure self
    let format ← match format with
      | some format => pure format
      | none => .error .null_dereference
    let self ← load_bool format "scroll-lock" (fun b => { self with scroll_lock_ := b }) self
    let self ← load_bool format "soft-wrap" (fun b => { self with wrap_ := b }) self
    pure (self, reg)

/-- The member function `ImGuiLogSink::SaveSettings` (sink.cpp:478-515): the root table
that is written to the settings file. -/
def ImGuiLogSink.SaveSettings {Reg : Type} (api : Registry Reg) (self : ImGuiLogSink)
    (reg : Reg) : cpptoml.table :=
  let root : cpptoml.table := []
  let loggers : List cpptoml.table := (api.Loggers reg).map fun log =>
    let logcfg : cpptoml.table := []
    let logcfg := cpptoml.insert logcfg "name" (.string log.1)
    cpptoml.insert logcfg "level" (.integer log.2)
  let root := cpptoml.insert root "loggers" (.table_array loggers)
  let format : cpptoml.table := []
  let format := cpptoml.insert format "show-time" (.boolean self.show_time_)
  let format := cpptoml.insert format "show-thread" (.boolean self.show_thread_)
  let format := cpptoml.insert format "show-level" (.boolean self.show_level_)
  let format := cpptoml.insert format "show-logger" (.boolean self.show_logger_)
  let root := cpptoml.insert root "format" (.table format)
  let root := cpptoml.insert root "scroll-lock" (.boolean self.scroll_lock_)
  let root := cpptoml.insert root "soft-wrap" (.boolean self.wrap_)
  root

/-! ## The record loop of `ImGuiLogSink::Draw` -/

/-- What `Draw` takes from the member `display_filter_`, an `ImGuiTextFilter` of Dear
ImGui: whether the filter is active, and its match predicate on a text. -/
structure ImGuiTextFilter where
  IsActive : Bool
  PassFilter : List Char → Bool

/-- The two text calls of Dear ImGui that `Draw` makes for a record, with the text each
one is handed. -/
inductive DrawCall where
  | TextUnformatted (text : List Char)
  | TextColored (col : ImVec4) (text : List Char)
  deriving DecidableEq

/-- What `Draw` emits for one record between `BeginGroup` and `EndGroup`: the weight of
the font it pushes (`Bold` or `Regular`) and the text calls, in order. -/
structure DrawnGroup where
  bold : Bool
  calls : List DrawCall
  deriving DecidableEq

/-- The text a `const char*` obtained by `c_str()` denotes: the characters before the
first NUL. -/
def c_str (s : List Char) : List Char := s.takeWhile fun c => c != Char.ofNat 0

/-- The macros `ASAP_ASSERT` and `ASAP_ASSERT_VAL` of `common/assert.h`: when the build
compiles assertions in, a condition that does not hold ends the run. -/
def ASAP_ASSERT (asserts : Bool) (cond : Bool) : Except Failure Unit :=
  if asserts && !cond then .error .assertion_failed else .ok ()

/-- The body of the record loop of `Draw` for a record that passed the filter
(sink.cpp:197-258): the font weight and the text calls. Layout calls, the wrap position
and the tooltip are left out. -/
def draw_record (asserts : Bool) (record : LogRecord) : Except Failure DrawnGroup := do
  let props ←
    if record.color_range_start_ > 0 then do
      let props_len := record.properties_.length
      ASAP_ASSERT asserts (decide (record.color_range_start_ < props_len))
      ASAP_ASSERT asserts (decide (record.color_range_end_ > record.color_range_start_))
      ASAP_ASSERT asserts (decide (record.color_range_end_ < props_len))
      let part1 ← substr record.properties_ 0 record.color_range_start_
      let part2 ← substr record.properties_ record.color_range_start_
        (to_size_t ((record.color_range_end_ : Int) - record.color_range_start_))
      let part3 ← substr record.properties_ record.color_range_end_
        (to_size_t ((props_len : Int) - record.color_range_end_))
      pure [DrawCall.TextUnformatted (c_str part1),
        DrawCall.TextColored record.color_ (c_str part2),
        DrawCall.TextUnformatted (c_str part3)]
    else if record.color_range_end_ = 1 then
      pure [DrawCall.TextColored record.color_ (c_str record.properties_)]
    else
      pure [DrawCall.TextUnformatted (c_str record.properties_)]
  let message :=
    if record.color_range_end_ = 1 then
      DrawCall.TextColored record.color_ (c_str record.message_)
    else
      DrawCall.TextUnformatted (c_str record.message_)
  pure { bold := record.emphasis_, calls := props ++ [message] }

/-- The record loop of `Draw` (sink.cpp:186-260) over the records of the store: each
record that passes the test at lines 187-196 is drawn, and the loop yields the records it
drew with what it emitted for each, in the order of the visits. -/
def draw_records (asserts : Bool) (display_filter_ : ImGuiTextFilter) :
    List LogRecord → Except Failure (List (LogRecord × DrawnGroup))
  | [] => .ok []
  | record :: rest =>
    if !display_filter_.IsActive ||
        display_filter_.PassFilter record.properties_ ||
        display_filter_.PassFilter record.source_ ||
        display_filter_.PassFilter record.message_ then
      match draw_record asserts record with
      | .error e => .error e
      | .ok group =>
        match draw_records asserts display_filter_ rest with
        | .error e => .error e
        | .ok groups => .ok ((record, group) :: groups)
    else draw_records asserts display_filter_ rest

/-- The record list part of the member function `ImGuiLogSink::Draw` (sink.cpp:179-262),
with the filter member passed in. The toolbar above the list is left out. -/
def ImGuiLogSink.Draw (asserts : Bool) (display_filter_ : ImGuiTextFilter)
    (self : ImGuiLogSink) : Except Failure (List (LogRecord × DrawnGroup)) :=
  draw_records asserts display_filter_ self.records_

/-- What happens in the block of `Draw` that holds the record loop (sink.cpp:179-261), as
far as the store lock goes: the `std::shared_lock` on `records_mutex_` is constructed, a
record is drawn, the lock is destroyed. -/
inductive DrawEvent where
  | lock_shared
  | draw (record : LogRecord) (group : DrawnGroup)
  | unlock_shared
  deriving DecidableEq

/-- The events of the block of `Draw` that holds the record loop, in program order: the
lock is constructed at line 185, just before the loop, and is destroyed where its scope
ends, at the closing brace of line 261 behind the loop. -/
def ImGuiLogSink.Draw_events (asserts : Bool) (display_filter_ : ImGuiTextFilter)
    (self : ImGuiLogSink) : Except Failure (List DrawEvent) :=
  match draw_records asserts display_filter_ self.records_ with
  | .error e => .error e
  | .ok groups =>
    .ok ([DrawEvent.lock_shared] ++ groups.map (fun p => DrawEvent.draw p.1 p.2) ++
      [DrawEvent.unlock_shared])

/-! ## `Font` (font.cpp) -/

/-- The enumeration `Font::Weight`. -/
inductive Font.Weight where
  | LIGHT
  | REGULAR
  | BOLD
  deriving DecidableEq, Repr

/-- The enumeration `Font::Style`. -/
inductive Font.Style where
  | NORMAL
  | ITALIC
  deriving DecidableEq, Repr

/-- The enumeration `Font::Size`. -/
inductive Font.Size where
  | SMALL
  | MEDIUM
  | LARGE
  | LARGER
  deriving DecidableEq, Repr

/-- The data members of `Font`, as the constructors and assignments of font.cpp name
them; an `ImFont*` is the number of the font it points to. -/
structure Font where
  font_ : Nat
  size_ : Font.Size
  style_ : Font.Style
  weight_ : Font.Weight
  name_ : List Char
  family_ : List Char
  deriving DecidableEq

/-- `Font::SizeString` (font.cpp:307-321). -/
def Font.SizeString : Font.Size → List Char
  | .SMALL => "11px".toList
  | .MEDIUM => "13px".toList
  | .LARGE => "16px".toList
  | .LARGER => "24px".toList

/-- `Font::StyleString` (font.cpp:323-333). -/
def Font.StyleString : Font.Style → List Char
  | .NORMAL => "Normal".toList
  | .ITALIC => "Italic".toList

/-- `Font::WeightString` (font.cpp:335-347). -/
def Font.WeightString : Font.Weight → List Char
  | .LIGHT => "Light".toList
  | .REGULAR => "Regular".toList
  | .BOLD => "Bold".toList

/-- `BuildFontName` (font.cpp:33-41). -/
def BuildFontName (family : List Char) (weight : Font.Weight) (style : Font.Style)
    (size : Font.Size) : List Char :=
  let name := family
  let name := name ++ " ".toList ++ Font.WeightString weight
  let name := if style = Font.Style.ITALIC then
      name ++ " ".toList ++ Font.StyleString style else name
  let name := name ++ " ".toList ++ Font.SizeString size
  name

/-- What `Font` reads of `Theme` and of Dear ImGui: the map `Theme::fonts_` from names to
fonts, the font `ImGui::GetFont()` returns, and `ImFont::GetDebugName`. -/
structure Theme where
  fonts_ : List (List Char × Nat)
  imgui_font : Nat
  GetDebugName : Nat → List Char

/-- `Theme::GetFont` (theme.cpp:132-138): the font registered under the name, and the
current font of Dear ImGui when there is none. -/
def Theme.GetFont (theme : Theme) (name : List Char) : Nat :=
  match theme.fonts_.lookup name with
  | some font => font
  | none => theme.imgui_font

/-- `Font::BuildName` (font.cpp:250-252). -/
def Font.BuildName (self : Font) : Font :=
  { self with name_ := BuildFontName self.family_ self.weight_ self.style_ self.size_ }

/-- `Font::InitFont` (font.cpp:208-212). -/
def Font.InitFont (theme : Theme) (self : Font) : Font :=
  let self := self.BuildName
  let self := { self with font_ := theme.GetFont self.name_ }
  { self with name_ := theme.GetDebugName self.font_ }

/-- The copy constructor `Font::Font(Font const &)` (font.cpp:214-219). Its initialiser
list names `font_`, `size_`, `style_`, `weight_` and `name_`; `family_` is not in it and
is default-constructed, an empty string. -/
def Font.copy (other : Font) : Font :=
  { font_ := other.font_
    size_ := other.size_
    style_ := other.style_
    weight_ := other.weight_
    name_ := other.name_
    family_ := [] }

/-- The copy assignment `Font::operator=(Font const &)` (font.cpp:221-228): the five
members it assigns; `family_` keeps the value the target had. -/
def Font.assign (self rhs : Font) : Font :=
  { self with
    font_ := rhs.font_
    size_ := rhs.size_
    style_ := rhs.style_
    weight_ := rhs.weight_
    name_ := rhs.name_ }

/-- `Font::SmallSize` (font.cpp:254-258). -/
def Font.SmallSize (theme : Theme) (self : Font) : Font :=
  Font.InitFont theme { self with size_ := .SMALL }

/-- `Font::MediumSize` (font.cpp:259-263). -/
def Font.MediumSize (theme : Theme) (self : Font) : Font :=
  Font.InitFont theme { self with size_ := .MEDIUM }

/-- `Font::LargeSize` (font.cpp:264-268). -/
def Font.LargeSize (theme : Theme) (self : Font) : Font :=
  Font.InitFont theme { self with size_ := .LARGE }

/-- `Font::LargerSize` (font.cpp:269-273). -/
def Font.LargerSize (theme : Theme) (self : Font) : Font :=
  Font.InitFont theme { self with size_ := .LARGER }

/-- `Font::Normal` (font.cpp:275-279). -/
def Font.Normal (theme : Theme) (self : Font) : Font :=
  Font.InitFont theme { self with style_ := .NORMAL }

/-- `Font::Italic` (font.cpp:281-285). -/
def Font.Italic (theme : Theme) (self : Font) : Font :=
  Font.InitFont theme { self with style_ := .ITALIC }

/-- `Font::Light` (font.cpp:287-291). -/
def Font.Light (theme : Theme) (self : Font) : Font :=
  Font.InitFont theme { self with weight_ := .LIGHT }

/-- `Font::Regular` (font.cpp:292-296). -/
def Font.Regular (theme : Theme) (self : Font) : Font :=
  Font.InitFont theme { self with weight_ := .REGULAR }

/-- `Font::Bold` (font.cpp:297-301). -/
def Font.Bold (theme : Theme) (self : Font) : Font :=
  Font.InitFont theme { self with weight_ := .BOLD }

/-! ## Sample inputs -/

/-- A build environment for worked examples: a fixed time text and three distinct style
colours. -/
def sample_env (ndebug : Bool) : Env :=
  { NDEBUG := ndebug
    date_format := fun _ => "01/01/19 00:00:00 UTC".toList
    GetStyleColorVec4 := fun c =>
      match c with
      | .Text => ⟨1, 1, 1, 1⟩
      | .TextDisabled => ⟨1 / 2, 1 / 2, 1 / 2, 1⟩
      | .NavHighlight => ⟨1 / 4, 3 / 5, 1, 1⟩ }

/-- An empty sink with the given four format switches. -/
def sample_sink (show_time show_thread show_level show_logger : Bool) : ImGuiLogSink :=
  { records_ := []
    show_time_ := show_time
    show_thread_ := show_thread
    show_level_ := show_level
    show_logger_ := show_logger
    wrap_ := false
    scroll_lock_ := false
    scroll_to_bottom_ := false }

/-- A message of logger `main` from thread 7 with the given level and payload. -/
def sample_msg (level : level_enum) (payload : String) : log_msg :=
  { logger_name := "main".toList
    level := level
    time := 0
    thread_id := 7
    payload := payload.toList }

/-- A logger registry for worked examples: the state is the list of names and levels,
and `set_level` rewrites the level of the loggers of the given name. -/
def sample_registry : Registry (List (List Char × Int)) :=
  { Loggers := fun reg => reg
    set_level := fun reg name level =>
      reg.map fun l => if l.1 = name then (l.1, level) else l }

/-- Whether the text holds the word as a run of consecutive characters. -/
def has_word (word : List Char) : List Char → Bool
  | [] => word.isEmpty
  | c :: rest => word.isPrefixOf (c :: rest) || has_word word rest

/-- An active filter for worked examples, which a text passes when it holds the word. -/
def sample_filter (word : String) : ImGuiTextFilter :=
  { IsActive := true, PassFilter := has_word word.toList }

/-- The filter with no filter text: inactive, and every text passes. -/
def inactive_filter : ImGuiTextFilter :=
  { IsActive := false, PassFilter := fun _ => true }

/-- Three messages for worked examples, in the order they are logged. -/
def sample_msgs : List log_msg :=
  [sample_msg .info "[net.cpp:10] connected",
   sample_msg .warn "[disk.cpp:7] nearly full",
   sample_msg .debug "[net.cpp:12] sent"]

/-- The sink that shows all four columns after the three sample messages, in a build
without `NDEBUG`. -/
def sample_store : ImGuiLogSink :=
  match sink_all (sample_env false) (sample_sink true true true true) sample_msgs with
  | .ok s => s
  | .error _ => sample_sink true true true true

/-- A theme for worked examples with the two medium Inconsolata fonts registered as
fonts 1 and 2; font 0 is the current font of Dear ImGui. -/
def sample_theme : Theme :=
  { fonts_ := [("Inconsolata Regular 13px".toList, 1), ("Inconsolata Bold 13px".toList, 2)]
    imgui_font := 0
    GetDebugName := fun font =>
      match font with
      | 1 => "Inconsolata Regular 13px".toList
      | 2 => "Inconsolata Bold 13px".toList
      | _ => "ProggyClean.ttf, 13px".toList }

/-- The font `Draw` works with (sink.cpp:182-183): Inconsolata, regular, medium. -/
def sample_font : Font :=
  { font_ := 1
    size_ := .MEDIUM
    style_ := .NORMAL
    weight_ := .REGULAR
    name_ := "Inconsolata Regular 13px".toList
    family_ := "Inconsolata".toList }

/-! ## The result of `sink_it_` -/

/-- A run of `sink_it_` that returns has stayed inside the payload, had a colour for the
level, and has appended one record whose fields are the values computed on the way. -/
theorem sink_it__returns (env : Env) (self : ImGuiLogSink) (msg : log_msg)
    (s' : ImGuiLogSink) (h : self.sink_it_ env msg = .ok s') :
    find_skip_to msg.payload ≤ msg.payload.length ∧
    (env.NDEBUG = false → 1 ≤ msg.payload.length) ∧
    ∃ r : LogRecord,
      s' = { self with records_ := self.records_ ++ [r], scroll_to_bottom_ := true } ∧
      r.properties_ = (build_properties env self msg).1 ∧
      r.source_ = (if env.NDEBUG then [] else
        (msg.payload.drop 1).take (to_size_t ((find_skip_to msg.payload : Int) - 0 - 3))) ∧
      r.message_ = msg.payload.drop (find_skip_to msg.payload) ∧
      (some r.color_, r.color_range_start_, r.color_range_end_, r.emphasis_) =
        select_color env msg.level (build_properties env self msg).2.1
          (build_properties env self msg).2.2 := by
  unfold ImGuiLogSink.sink_it_ at h
  simp only [bind, Except.bind, pure, Except.pure, substr, substr_from, deref] at h
  by_cases hk : find_skip_to msg.payload ≤ msg.payload.length
  · by_cases hnd : env.NDEBUG = true
    · cases hl : msg.level <;> simp [hl, hnd, select_color, Nat.not_lt.mpr hk] at h
      all_goals
        subst h
        simp [hl, hnd, select_color, hk]
    · by_cases h1 : 1 ≤ msg.payload.length
      · cases hl : msg.level <;> simp [hl, hnd, select_color, Nat.not_lt.mpr hk, Nat.not_lt.mpr h1] at h
        all_goals
          subst h
          simp [hl, hnd, select_color, hk, h1]
      · have h0 : msg.payload = [] := List.length_eq_zero.mp (by omega)
        simp [hnd, h0] at h
  · have hk' : msg.payload.length < find_skip_to msg.payload := Nat.lt_of_not_le hk
    by_cases hnd : env.NDEBUG = true
    · simp [hnd, hk'] at h
    · by_cases h0 : msg.payload = []
      · simp [hnd, h0] at h
      · simp [hnd, hk', h0] at h

/-- A run of `sink_it_` returns when the level is not `off`, the skip position lies
inside the payload and, in a build without `NDEBUG`, the payload is not empty. -/
theorem sink_it__succeeds (env : Env) (self : ImGuiLogSink) (msg : log_msg)
    (hl : msg.level ≠ .off) (hk : find_skip_to msg.payload ≤ msg.payload.length)
    (h1 : env.NDEBUG = false → 1 ≤ msg.payload.length) :
    ∃ s', self.sink_it_ env msg = .ok s' := by
  unfold ImGuiLogSink.sink_it_
  simp only [bind, Except.bind, pure, Except.pure, substr, substr_from, deref]
  by_cases hnd : env.NDEBUG = true
  · cases hlv : msg.level <;> simp [hlv, hnd, select_color, Nat.not_lt.mpr hk] at hl ⊢
  · have h1' : 1 ≤ msg.payload.length := h1 (by simpa using hnd)
    cases hlv : msg.level <;>
      simp [hlv, hnd, select_color, Nat.not_lt.mpr hk, Nat.not_lt.mpr h1'] at hl ⊢

/-! ## The two scans -/

/-- The forward scan stops on the first closing bracket. -/
theorem scan_forward_append (l1 l2 : List Char) (i : Nat) (h : ']' ∉ l1) :
    scan_forward (l1 ++ ']' :: l2) i = i + l1.length := by
  induction l1 generalizing i with
  | nil => simp [scan_forward]
  | cons c cs ih =>
    have hc : c ≠ ']' := fun e => h (by simp [e])
    have hcs : ']' ∉ cs := fun e => h (by simp [e])
    simp [scan_forward, hc, ih (i + 1) hcs]
    omega

/-- Without a closing bracket the forward scan runs to the end. -/
theorem scan_forward_not_mem (l : List Char) (i : Nat) (h : ']' ∉ l) :
    scan_forward l i = i + l.length := by
  induction l generalizing i with
  | nil => simp [scan_forward]
  | cons c cs ih =>
    have hc : c ≠ ']' := fun e => h (by simp [e])
    have hcs : ']' ∉ cs := fun e => h (by simp [e])
    simp [scan_forward, hc, ih (i + 1) hcs]
    omega

/-- The forward scan never leaves the string. -/
theorem scan_forward_le (l : List Char) (i : Nat) : scan_forward l i ≤ i + l.length := by
  induction l generalizing i with
  | nil => simp [scan_forward]
  | cons c cs ih =>
    simp only [scan_forward]
    split
    · have := ih (i + 1)
      simp only [List.length_cons]
      omega
    · simp

/-- The backward scan does not move forward. -/
theorem scan_back_le (s : List Char) (i : Nat) : scan_back s i ≤ i := by
  induction i with
  | zero => simp [scan_back]
  | succ n ih =>
    simp only [scan_back]
    split
    · omega
    · omega

/-- A digit is not a colon. -/
theorem isdigit_ne_colon (c : Char) (h : isdigit c = true) : c ≠ ':' := by
  intro e
  subst e
  revert h
  decide

/-- Reading past a prefix reads the rest. -/
theorem char_at_append (l1 l2 : List Char) (i : Nat) :
    char_at (l1 ++ l2) (l1.length + i) = char_at l2 i := by
  induction l1 with
  | nil => simp
  | cons c cs ih =>
    have e : (c :: cs).length + i = (cs.length + i) + 1 := by simp only [List.length_cons]; omega
    rw [e]
    simpa [char_at] using ih

/-- Reading the first character. -/
theorem char_at_cons_zero (c : Char) (l : List Char) : char_at (c :: l) 0 = c := by
  simp [char_at]

/-- Reading behind the first character. -/
theorem char_at_cons_succ (c : Char) (l : List Char) (i : Nat) :
    char_at (c :: l) (i + 1) = char_at l i := by
  simp [char_at]

/-- Reading inside the string reads its element. -/
theorem char_at_get (l : List Char) (i : Nat) (h : i < l.length) :
    char_at l i = l.get ⟨i, h⟩ := by
  simp [char_at, List.getD_eq_getElem?_getD, List.getElem?_eq_getElem h]

/-- Reading inside a prefix ignores what follows it. -/
theorem char_at_append_left (l1 l2 : List Char) (i : Nat) (h : i < l1.length) :
    char_at (l1 ++ l2) i = l1.get ⟨i, h⟩ := by
  simp [char_at, List.getD_eq_getElem?_getD, List.getElem?_append_left h,
    List.getElem?_eq_getElem h]

/-- The backward scan over digits that follow a colon stops on the colon. -/
theorem scan_back_digits (pre d post : List Char) (hd : ∀ c ∈ d, isdigit c = true)
    (k : Nat) (hk : k ≤ d.length) :
    scan_back (pre ++ ':' :: (d ++ post)) (pre.length + 1 + k) = pre.length := by
  induction k with
  | zero =>
    have hc : char_at (pre ++ ':' :: (d ++ post)) pre.length = ':' := by
      have := char_at_append pre (':' :: (d ++ post)) 0
      simpa [char_at_cons_zero] using this
    show scan_back (pre ++ ':' :: (d ++ post)) (pre.length + 1) = pre.length
    simp [scan_back, hc]
  | succ n ih =>
    have hn : n < d.length := by omega
    have hc : char_at (pre ++ ':' :: (d ++ post)) (pre.length + 1 + n) = d.get ⟨n, hn⟩ := by
      have e1 : pre.length + 1 + n = pre.length + (n + 1) := by omega
      rw [e1, char_at_append, char_at_cons_succ, char_at_append_left d post n hn]
    have hdig : isdigit (d.get ⟨n, hn⟩) = true := hd _ (List.get_mem _ _ _)
    have hne := isdigit_ne_colon _ hdig
    show scan_back (pre ++ ':' :: (d ++ post)) ((pre.length + 1 + n) + 1) = pre.length
    simp only [scan_back, hc, hdig, hne]
    simpa using ih (by omega)

/-- A digit is not a closing bracket. -/
theorem isdigit_ne_close (c : Char) (h : isdigit c = true) : c ≠ ']' := by
  intro e
  subst e
  revert h
  decide

/-- On a payload that opens with a bracket whose content is `a`, a colon and the digits
`d`, the skip position is two past the closing bracket, whatever follows it. -/
theorem find_skip_to_tag (a d tail : List Char) (ha : ']' ∉ a)
    (hd : ∀ c ∈ d, isdigit c = true) :
    find_skip_to ('[' :: (a ++ ':' :: (d ++ ']' :: tail))) = a.length + d.length + 4 := by
  have hfwd : scan_forward ('[' :: (a ++ ':' :: (d ++ ']' :: tail))) 0
      = a.length + d.length + 2 := by
    have hmem : ']' ∉ '[' :: (a ++ ':' :: d) := by
      intro h
      simp only [List.mem_cons, List.mem_append] at h
      rcases h with h | h | h | h
      · exact absurd h (by decide)
      · exact ha h
      · exact absurd h (by decide)
      · exact isdigit_ne_close _ (hd _ h) rfl
    have := scan_forward_append ('[' :: (a ++ ':' :: d)) tail 0 hmem
    simp only [List.cons_append, List.append_assoc, List.length_cons, List.length_append] at this
    rw [this]
    omega
  have hback : scan_back ('[' :: (a ++ ':' :: (d ++ ']' :: tail))) (a.length + d.length + 2)
      = a.length + 1 := by
    have := scan_back_digits ('[' :: a) d (']' :: tail) hd d.length (Nat.le_refl _)
    simp only [List.cons_append, List.length_cons] at this
    have e : a.length + d.length + 2 = a.length + 1 + 1 + d.length := by omega
    rw [e]
    exact this
  have hcolon : char_at ('[' :: (a ++ ':' :: (d ++ ']' :: tail))) (a.length + 1) = ':' := by
    rw [char_at_cons_succ]
    have := char_at_append a (':' :: (d ++ ']' :: tail)) 0
    simpa [char_at_cons_zero] using this
  unfold find_skip_to
  simp only [char_at_cons_zero, if_true, hfwd, hback, hcolon]
  have hlen : ¬ (a.length + d.length + 2 = ('[' :: (a ++ ':' :: (d ++ ']' :: tail))).length) := by
    simp only [List.length_cons, List.length_append]
    omega
  rw [if_neg hlen]

/-- On a payload that does not open with a bracket the skip position is the start. -/
theorem find_skip_to_no_open (s : List Char) (h : s.head? ≠ some '[') : find_skip_to s = 0 := by
  unfold find_skip_to
  cases s with
  | nil => simp [char_at]
  | cons c cs =>
    have hc : c ≠ '[' := fun e => h (by simp [e])
    simp [char_at_cons_zero, hc]

/-- On a payload without a closing bracket the skip position is the start. -/
theorem find_skip_to_no_close (s : List Char) (h : ']' ∉ s) : find_skip_to s = 0 := by
  unfold find_skip_to
  have := scan_forward_not_mem s 0 h
  simp [this]

/-- The count `skip_to - begin() - 3` as a `std::size_t`, when it does not wrap. -/
theorem to_size_t_sub_three (n : Nat) (h3 : 3 ≤ n) (hn : n < 2 ^ 64) :
    to_size_t ((n : Int) - 0 - 3) = n - 3 := by
  unfold to_size_t
  have e : (n : Int) - 0 - 3 = ((n - 3 : Nat) : Int) := by omega
  rw [e]
  have hlt : ((n - 3 : Nat) : Int) < 2 ^ 64 := by
    have : n - 3 < 2 ^ 64 := by omega
    exact_mod_cast this
  rw [Int.emod_eq_of_lt (by omega) hlt]
  simp

/-- What `sink_it_` stores for a payload that opens with a bracket holding `a`, a colon
and the digits `d`, followed by one character `c` and the text `rest`: the message is
`rest`, and the source of a build without `NDEBUG` is the bracket content. -/
theorem sink_it__tag (env : Env) (self : ImGuiLogSink) (msg : log_msg)
    (a d rest : List Char) (c : Char) (hl : msg.level ≠ .off) (ha : ']' ∉ a)
    (hd : ∀ x ∈ d, isdigit x = true)
    (hp : msg.payload = '[' :: (a ++ ':' :: (d ++ ']' :: c :: rest)))
    (hsize : msg.payload.length < 2 ^ 64) :
    ∃ r : LogRecord,
      self.sink_it_ env msg =
        .ok { self with records_ := self.records_ ++ [r], scroll_to_bottom_ := true } ∧
      r.message_ = rest ∧ (env.NDEBUG = false → r.source_ = a ++ ':' :: d) := by
  have hskip : find_skip_to msg.payload = a.length + d.length + 4 := by
    rw [hp]
    exact find_skip_to_tag a d (c :: rest) ha hd
  have hlen : msg.payload.length = a.length + d.length + 4 + rest.length := by
    rw [hp]
    simp only [List.length_cons, List.length_append]
    omega
  obtain ⟨s', hs'⟩ := sink_it__succeeds env self msg hl (by omega) (by intro _; omega)
  obtain ⟨-, -, r, hr, -, hsrc, hmsg, -⟩ := sink_it__returns env self msg s' hs'
  refine ⟨r, hr ▸ hs', ?_, ?_⟩
  · rw [hmsg, hskip, hp]
    have e : '[' :: (a ++ ':' :: (d ++ ']' :: c :: rest))
        = ('[' :: (a ++ ':' :: (d ++ [']', c]))) ++ rest := by simp
    rw [e]
    apply List.drop_left'
    simp only [List.length_cons, List.length_append, List.length_nil]
    omega
  · intro hnd
    rw [hsrc, hskip]
    simp only [hnd, Bool.false_eq_true, if_false]
    rw [to_size_t_sub_three _ (by omega) (by omega), hp]
    have e : List.drop 1 ('[' :: (a ++ ':' :: (d ++ ']' :: c :: rest)))
        = (a ++ ':' :: d) ++ ']' :: c :: rest := by simp
    rw [e]
    apply List.take_left'
    simp only [List.length_cons, List.length_append]
    omega

/-! ## Claims on the source-location tag -/

/-- C1: for a payload `"[" ++ a ++ ":" ++ d ++ "] " ++ rest`, where `a` has no closing
bracket and `d` is a non-empty run of decimal digits, `sink_it_` (at a level other than
`off`) appends a record whose message is `rest` and whose source, in a build without
`NDEBUG`, is `a ++ ":" ++ d`. The payload has a size below `2 ^ 64`, as every
`std::string` has. -/
theorem sink_it__extracts_source_location (env : Env) (self : ImGuiLogSink) (msg : log_msg)
    (a d rest : List Char) (hl : msg.level ≠ .off) (ha : ']' ∉ a)
    (hd : ∀ x ∈ d, isdigit x = true) (_hne : d ≠ [])
    (hp : msg.payload = "[".toList ++ a ++ ":".toList ++ d ++ "] ".toList ++ rest)
    (hsize : msg.payload.length < 2 ^ 64) :
    ∃ r : LogRecord,
      self.sink_it_ env msg =
        .ok { self with records_ := self.records_ ++ [r], scroll_to_bottom_ := true } ∧
      r.message_ = rest ∧
      (env.NDEBUG = false → r.source_ = a ++ ":".toList ++ d) := by
  have hp' : msg.payload = '[' :: (a ++ ':' :: (d ++ ']' :: ' ' :: rest)) := by
    rw [hp]
    simp
  obtain ⟨r, hr, hmsg, hsrc⟩ := sink_it__tag env self msg a d rest ' ' hl ha hd hp' hsize
  exact ⟨r, hr, hmsg, fun hnd => by simpa using hsrc hnd⟩

/-- C1 at the payload `[foo.cpp:42] hello world` in a build without `NDEBUG`. -/
theorem sink_it__extracts_source_location_witness :
    ∃ r : LogRecord,
      (sample_sink true true true true).sink_it_ (sample_env false)
          (sample_msg .info "[foo.cpp:42] hello world") =
        .ok { sample_sink true true true true with
              records_ := (sample_sink true true true true).records_ ++ [r],
              scroll_to_bottom_ := true } ∧
      r.message_ = "hello world".toList ∧
      ((sample_env false).NDEBUG = false → r.source_ = "foo.cpp".toList ++ ":".toList ++ "42".toList) :=
  sink_it__extracts_source_location (sample_env false) (sample_sink true true true true)
    (sample_msg .info "[foo.cpp:42] hello world") "foo.cpp".toList "42".toList
    "hello world".toList (by decide) (by decide) (by decide) (by decide) rfl (by decide)

/-- C2: the payload `[WARN] disk full` starts with a bracket whose content does not end
in a colon and digits, yet the record `sink_it_` stores for it has the message
`N] disk full`: the backward scan stops on the `N` and the skip position stays there. -/
theorem sink_it__rejected_bracket_cuts_message :
    ∃ r : LogRecord,
      (sample_sink true true true true).sink_it_ (sample_env false)
          (sample_msg .info "[WARN] disk full") =
        .ok { sample_sink true true true true with records_ := [r], scroll_to_bottom_ := true } ∧
      find_skip_to "[WARN] disk full".toList = 4 ∧
      r.message_ = "N] disk full".toList ∧
      r.message_ ≠ "[WARN] disk full".toList :=
  ⟨_, rfl, rfl, rfl, by decide⟩

/-- C3: in a build without `NDEBUG` the payload `hello`, which has no tag, is stored with
the source `ello`, and the payload `[]` with the source `]`: the count `0 - 3` wraps to a
huge `std::size_t`, so `substr(1, count)` returns all that follows the first character. -/
theorem sink_it__source_without_tag :
    (∃ r : LogRecord,
      (sample_sink true true true true).sink_it_ (sample_env false)
          (sample_msg .info "hello") =
        .ok { sample_sink true true true true with records_ := [r], scroll_to_bottom_ := true } ∧
      find_skip_to "hello".toList = 0 ∧
      r.source_ = "ello".toList ∧ r.source_ ≠ []) ∧
    (∃ r : LogRecord,
      (sample_sink true true true true).sink_it_ (sample_env false)
          (sample_msg .info "[]") =
        .ok { sample_sink true true true true with records_ := [r], scroll_to_bottom_ := true } ∧
      find_skip_to "[]".toList = 0 ∧
      r.source_ = "]".toList ∧ r.source_ ≠ []) :=
  ⟨⟨_, rfl, rfl, rfl, by decide⟩, ⟨_, rfl, rfl, rfl, by decide⟩⟩

/-- C4: on the payload `[a:1]`, which ends right after a location tag, `sink_it_` throws
`std::out_of_range` in every build, with every format setting and at every level: the skip
position is 6 in a string of size 5. On the empty payload it throws in every build
without `NDEBUG`. No record is appended in either case. -/
theorem sink_it__throws_out_of_range (env : Env) (self : ImGuiLogSink)
    (logger_name : List Char) (level : level_enum) (time thread_id : Nat) :
    find_skip_to "[a:1]".toList = 6 ∧
    self.sink_it_ env
        { logger_name := logger_name, level := level, time := time, thread_id := thread_id,
          payload := "[a:1]".toList } = .error .out_of_range ∧
    self.sink_it_ { env with NDEBUG := false }
        { logger_name := logger_name, level := level, time := time, thread_id := thread_id,
          payload := [] } = .error .out_of_range := by
  have hk : find_skip_to "[a:1]".toList = 6 := rfl
  refine ⟨hk, ?_, ?_⟩
  · unfold ImGuiLogSink.sink_it_
    simp only [bind, Except.bind, pure, Except.pure, substr, substr_from, deref, hk]
    cases env.NDEBUG <;> simp
  · unfold ImGuiLogSink.sink_it_
    simp [bind, Except.bind, substr]

/-- C5, as stated, fails: in the payload `[a:1]xyz` the tag is followed by `x`, not by a
space, and the stored message is `yz`, not the payload. -/
theorem sink_it__separator_unchecked :
    ∃ r : LogRecord,
      (sample_sink true true true true).sink_it_ (sample_env false)
          (sample_msg .info "[a:1]xyz") =
        .ok { sample_sink true true true true with records_ := [r], scroll_to_bottom_ := true } ∧
      r.message_ = "yz".toList ∧
      r.message_ ≠ "[a:1]xyz".toList :=
  ⟨_, rfl, rfl, by decide⟩

/-- C5, amended: for a payload `"[" ++ a ++ ":" ++ d ++ "]" ++ [c] ++ rest`, where `a` has
no closing bracket, `d` is a non-empty run of decimal digits and `c` is any one character,
a space or not, `sink_it_` (at a level other than `off`) takes the bracket as a tag and
drops it together with `c`: the message of the appended record is `rest`. The payload
has a size below `2 ^ 64`, as every `std::string` has. -/
theorem sink_it__drops_any_separator (env : Env) (self : ImGuiLogSink) (msg : log_msg)
    (a d rest : List Char) (c : Char) (hl : msg.level ≠ .off) (ha : ']' ∉ a)
    (hd : ∀ x ∈ d, isdigit x = true) (_hne : d ≠ [])
    (hp : msg.payload = "[".toList ++ a ++ ":".toList ++ d ++ "]".toList ++ [c] ++ rest)
    (hsize : msg.payload.length < 2 ^ 64) :
    ∃ r : LogRecord,
      self.sink_it_ env msg =
        .ok { self with records_ := self.records_ ++ [r], scroll_to_bottom_ := true } ∧
      r.message_ = rest := by
  have hp' : msg.payload = '[' :: (a ++ ':' :: (d ++ ']' :: c :: rest)) := by
    rw [hp]
    simp
  obtain ⟨r, hr, hmsg, -⟩ := sink_it__tag env self msg a d rest c hl ha hd hp' hsize
  exact ⟨r, hr, hmsg⟩

/-- C5, amended, at the payload `[a:1]xyz`. -/
theorem sink_it__drops_any_separator_witness :
    ∃ r : LogRecord,
      (sample_sink true true true true).sink_it_ (sample_env true)
          (sample_msg .warn "[a:1]xyz") =
        .ok { sample_sink true true true true with
              records_ := (sample_sink true true true true).records_ ++ [r],
              scroll_to_bottom_ := true } ∧
      r.message_ = "yz".toList :=
  sink_it__drops_any_separator (sample_env true) (sample_sink true true true true)
    (sample_msg .warn "[a:1]xyz") "a".toList "1".toList "yz".toList 'x'
    (by decide) (by decide) (by decide) (by decide) rfl (by decide)

/-- C6: for a non-empty payload that does not start with an opening bracket, or starts
with one but has no closing bracket, `sink_it_` (at a level other than `off`) appends a
record whose message is the payload, unchanged. -/
theorem sink_it__passes_untagged_payload (env : Env) (self : ImGuiLogSink) (msg : log_msg)
    (hl : msg.level ≠ .off) (hne : msg.payload ≠ [])
    (hp : msg.payload.head? ≠ some '[' ∨ (msg.payload.head? = some '[' ∧ ']' ∉ msg.payload)) :
    ∃ r : LogRecord,
      self.sink_it_ env msg =
        .ok { self with records_ := self.records_ ++ [r], scroll_to_bottom_ := true } ∧
      r.message_ = msg.payload := by
  have hskip : find_skip_to msg.payload = 0 := by
    rcases hp with h | ⟨-, h⟩
    · exact find_skip_to_no_open _ h
    · exact find_skip_to_no_close _ h
  have hlen : 1 ≤ msg.payload.length := List.length_pos.mpr hne
  obtain ⟨s', hs'⟩ := sink_it__succeeds env self msg hl (by omega) (fun _ => hlen)
  obtain ⟨-, -, r, hr, -, -, hmsg, -⟩ := sink_it__returns env self msg s' hs'
  refine ⟨r, hr ▸ hs', ?_⟩
  rw [hmsg, hskip]
  rfl

/-- C6 at the payload `[unclosed text`, which opens a bracket and never closes it. -/
theorem sink_it__passes_untagged_payload_witness :
    ∃ r : LogRecord,
      (sample_sink true true true true).sink_it_ (sample_env false)
          (sample_msg .err "[unclosed text") =
        .ok { sample_sink true true true true with
              records_ := (sample_sink true true true true).records_ ++ [r],
              scroll_to_bottom_ := true } ∧
      r.message_ = (sample_msg .err "[unclosed text").payload :=
  sink_it__passes_untagged_payload (sample_env false) (sample_sink true true true true)
    (sample_msg .err "[unclosed text") (by decide) (by decide)
    (Or.inr ⟨rfl, by decide⟩)

/-! ## Claims on the colour range -/

/-- With the level column shown, the two stream positions enclose the four characters
of the level tag, inside the properties string; the first position is zero exactly when
neither the time nor the thread column precedes the tag. -/
theorem build_properties_show_level (env : Env) (self : ImGuiLogSink) (msg : log_msg)
    (h : self.show_level_ = true) :
    (build_properties env self msg).2.2 = (build_properties env self msg).2.1 + 4 ∧
    (build_properties env self msg).2.2 ≤ (build_properties env self msg).1.length ∧
    (0 < (build_properties env self msg).2.1 ↔
      (self.show_time_ = true ∨ self.show_thread_ = true)) := by
  have h4 : (to_short_c_str msg.level).length = 1 := by
    cases msg.level <;> rfl
  unfold build_properties
  cases ht : self.show_time_ <;> cases hth : self.show_thread_ <;>
    cases hlg : self.show_logger_ <;>
    simp [h, h4] <;> omega

/-- With the level column hidden, both stream positions stay zero. -/
theorem build_properties_hide_level (env : Env) (self : ImGuiLogSink) (msg : log_msg)
    (h : self.show_level_ = false) :
    (build_properties env self msg).2.1 = 0 ∧ (build_properties env self msg).2.2 = 0 := by
  unfold build_properties
  simp [h]

/-- C7, as stated, fails: with the time and thread columns hidden and the level column
shown, the record of a debug message has `color_range_start_ = 0`. -/
theorem sink_it__level_tag_first :
    ∃ r : LogRecord,
      (sample_sink false false true true).sink_it_ (sample_env false)
          (sample_msg .debug "ready") =
        .ok { sample_sink false false true true with
              records_ := [r], scroll_to_bottom_ := true } ∧
      r.properties_ = "[D] [main] ".toList ∧
      r.color_range_start_ = 0 ∧ r.color_range_end_ = 4 ∧
      ¬ (0 < r.color_range_start_) :=
  ⟨_, rfl, rfl, rfl, rfl, by decide⟩

/-- C7, amended: every record `sink_it_` produces at level debug or info with the level
column shown has `color_range_start_ < color_range_end_ ≤ length properties_`, and
`0 < color_range_start_` holds exactly when the time or the thread column is shown.
A record is produced whenever the skip position lies inside the payload and, in a
build without `NDEBUG`, the payload is not empty. -/
theorem sink_it__level_range (env : Env) (self : ImGuiLogSink) (msg : log_msg)
    (hlv : msg.level = .debug ∨ msg.level = .info) (hsl : self.show_level_ = true) :
    (∀ s', self.sink_it_ env msg = .ok s' →
      ∃ r : LogRecord,
        s' = { self with records_ := self.records_ ++ [r], scroll_to_bottom_ := true } ∧
        r.color_range_start_ < r.color_range_end_ ∧
        r.color_range_end_ ≤ r.properties_.length ∧
        (0 < r.color_range_start_ ↔ (self.show_time_ = true ∨ self.show_thread_ = true))) ∧
    (find_skip_to msg.payload ≤ msg.payload.length →
      (env.NDEBUG = false → msg.payload ≠ []) →
      ∃ s', self.sink_it_ env msg = .ok s') := by
  constructor
  · intro s' hs'
    obtain ⟨-, -, r, hr, hprops, -, -, hsel⟩ := sink_it__returns env self msg s' hs'
    obtain ⟨h4, hle, hpos⟩ := build_properties_show_level env self msg hsl
    have hse : r.color_range_start_ = (build_properties env self msg).2.1 ∧
        r.color_range_end_ = (build_properties env self msg).2.2 := by
      rcases hlv with hlv | hlv <;> rw [hlv] at hsel <;>
        simp only [select_color, Prod.mk.injEq] at hsel <;> exact ⟨hsel.2.1, hsel.2.2.1⟩
    refine ⟨r, hr, ?_, ?_, ?_⟩
    · rw [hse.1, hse.2]; omega
    · rw [hse.2, hprops]; exact hle
    · rw [hse.1]; exact hpos
  · intro hk h1
    have hoff : msg.level ≠ .off := by
      rcases hlv with hlv | hlv <;> rw [hlv] <;> decide
    exact sink_it__succeeds env self msg hoff hk
      (fun hnd => List.length_pos.mpr (h1 hnd))

/-- C7, amended, at an info message with all four columns shown: the record is produced,
and its range is the level tag behind the time and thread columns. -/
theorem sink_it__level_range_witness :
    ∃ r : LogRecord,
      (sample_sink true true true true).sink_it_ (sample_env false)
          (sample_msg .info "ready") =
        .ok { sample_sink true true true true with
              records_ := (sample_sink true true true true).records_ ++ [r],
              scroll_to_bottom_ := true } ∧
      r.color_range_start_ < r.color_range_end_ ∧
      r.color_range_end_ ≤ r.properties_.length ∧
      0 < r.color_range_start_ := by
  obtain ⟨hall, hex⟩ := sink_it__level_range (sample_env false)
    (sample_sink true true true true) (sample_msg .info "ready") (Or.inr rfl) rfl
  obtain ⟨s', hs'⟩ := hex (by decide) (by decide)
  obtain ⟨r, hr, hlt, hle, hpos⟩ := hall s' hs'
  exact ⟨r, hr ▸ hs', hlt, hle, hpos.mpr (Or.inl rfl)⟩

/-- C8: at level trace, warn, err or critical, whatever the four format switches and the
payload, every record `sink_it_` produces has `color_range_start_ = 0` and
`color_range_end_ = 1`. A record is produced whenever the skip position lies inside the
payload and, in a build without `NDEBUG`, the payload is not empty. -/
theorem sink_it__color_sentinel (env : Env) (self : ImGuiLogSink) (msg : log_msg)
    (hlv : msg.level = .trace ∨ msg.level = .warn ∨ msg.level = .err ∨
      msg.level = .critical) :
    (∀ s', self.sink_it_ env msg = .ok s' →
      ∃ r : LogRecord,
        s' = { self with records_ := self.records_ ++ [r], scroll_to_bottom_ := true } ∧
        r.color_range_start_ = 0 ∧ r.color_range_end_ = 1) ∧
    (find_skip_to msg.payload ≤ msg.payload.length →
      (env.NDEBUG = false → msg.payload ≠ []) →
      ∃ s', self.sink_it_ env msg = .ok s') := by
  constructor
  · intro s' hs'
    obtain ⟨-, -, r, hr, -, -, -, hsel⟩ := sink_it__returns env self msg s' hs'
    refine ⟨r, hr, ?_⟩
    rcases hlv with hlv | hlv | hlv | hlv <;> rw [hlv] at hsel <;>
      simp only [select_color, Prod.mk.injEq] at hsel <;> exact ⟨hsel.2.1, hsel.2.2.1⟩
  · intro hk h1
    have hoff : msg.level ≠ .off := by
      rcases hlv with hlv | hlv | hlv | hlv <;> rw [hlv] <;> decide
    exact sink_it__succeeds env self msg hoff hk
      (fun hnd => List.length_pos.mpr (h1 hnd))

/-- C8 at a warn message with the level column shown and the others hidden: the record is
produced and carries the sentinel. -/
theorem sink_it__color_sentinel_witness :
    ∃ r : LogRecord,
      (sample_sink false false true false).sink_it_ (sample_env true)
          (sample_msg .warn "[disk.cpp:7] nearly full") =
        .ok { sample_sink false false true false with
              records_ := (sample_sink false false true false).records_ ++ [r],
              scroll_to_bottom_ := true } ∧
      r.color_range_start_ = 0 ∧ r.color_range_end_ = 1 := by
  obtain ⟨hall, hex⟩ := sink_it__color_sentinel (sample_env true)
    (sample_sink false false true false) (sample_msg .warn "[disk.cpp:7] nearly full")
    (Or.inr (Or.inl rfl))
  obtain ⟨s', hs'⟩ := hex (by decide) (by decide)
  obtain ⟨r, hr, h0, h1⟩ := hall s' hs'
  exact ⟨r, hr ▸ hs', h0, h1⟩

/-- C9: at level debug or info with the level column hidden, whatever the other format
switches and the payload, every record `sink_it_` produces has `color_range_start_ = 0`
and `color_range_end_ = 0`. A record is produced whenever the skip position lies inside
the payload and, in a build without `NDEBUG`, the payload is not empty. -/
theorem sink_it__no_color_without_level (env : Env) (self : ImGuiLogSink) (msg : log_msg)
    (hlv : msg.level = .debug ∨ msg.level = .info) (hsl : self.show_level_ = false) :
    (∀ s', self.sink_it_ env msg = .ok s' →
      ∃ r : LogRecord,
        s' = { self with records_ := self.records_ ++ [r], scroll_to_bottom_ := true } ∧
        r.color_range_start_ = 0 ∧ r.color_range_end_ = 0) ∧
    (find_skip_to msg.payload ≤ msg.payload.length →
      (env.NDEBUG = false → msg.payload ≠ []) →
      ∃ s', self.sink_it_ env msg = .ok s') := by
  constructor
  · intro s' hs'
    obtain ⟨-, -, r, hr, -, -, -, hsel⟩ := sink_it__returns env self msg s' hs'
    obtain ⟨h1, h2⟩ := build_properties_hide_level env self msg hsl
    refine ⟨r, hr, ?_⟩
    rcases hlv with hlv | hlv <;> rw [hlv, h1, h2] at hsel <;>
      simp only [select_color, Prod.mk.injEq] at hsel <;> exact ⟨hsel.2.1, hsel.2.2.1⟩
  · intro hk h1
    have hoff : msg.level ≠ .off := by
      rcases hlv with hlv | hlv <;> rw [hlv] <;> decide
    exact sink_it__succeeds env self msg hoff hk
      (fun hnd => List.length_pos.mpr (h1 hnd))

/-- C9 at a debug message with every column but the level shown: the record is produced
and has no colour range. -/
theorem sink_it__no_color_without_level_witness :
    ∃ r : LogRecord,
      (sample_sink true true false true).sink_it_ (sample_env false)
          (sample_msg .debug "ready") =
        .ok { sample_sink true true false true with
              records_ := (sample_sink true true false true).records_ ++ [r],
              scroll_to_bottom_ := true } ∧
      r.color_range_start_ = 0 ∧ r.color_range_end_ = 0 := by
  obtain ⟨hall, hex⟩ := sink_it__no_color_without_level (sample_env false)
    (sample_sink true true false true) (sample_msg .debug "ready") (Or.inl rfl) rfl
  obtain ⟨s', hs'⟩ := hex (by decide) (by decide)
  obtain ⟨r, hr, h0, h1⟩ := hall s' hs'
  exact ⟨r, hr ▸ hs', h0, h1⟩

/-- C10: at every level from trace to critical, every record `sink_it_` produces carries
the colour of the table (trace the disabled-text style colour, debug the text style
colour, info the highlight style colour, warn `COLOR_WARN`, err and critical
`COLOR_ERROR`), and its emphasis flag is set exactly at level critical. A record is
produced whenever the skip position lies inside the payload and, in a build without
`NDEBUG`, the payload is not empty. -/
theorem sink_it__color_table (env : Env) (self : ImGuiLogSink) (msg : log_msg)
    (hlv : msg.level ≠ .off) :
    (∀ s', self.sink_it_ env msg = .ok s' →
      ∃ r : LogRecord,
        s' = { self with records_ := self.records_ ++ [r], scroll_to_bottom_ := true } ∧
        (msg.level = .trace → r.color_ = env.GetStyleColorVec4 .TextDisabled) ∧
        (msg.level = .debug → r.color_ = env.GetStyleColorVec4 .Text) ∧
        (msg.level = .info → r.color_ = env.GetStyleColorVec4 .NavHighlight) ∧
        (msg.level = .warn → r.color_ = COLOR_WARN) ∧
        (msg.level = .err → r.color_ = COLOR_ERROR) ∧
        (msg.level = .critical → r.color_ = COLOR_ERROR) ∧
        (r.emphasis_ = true ↔ msg.level = .critical)) ∧
    (find_skip_to msg.payload ≤ msg.payload.length →
      (env.NDEBUG = false → msg.payload ≠ []) →
      ∃ s', self.sink_it_ env msg = .ok s') := by
  constructor
  · intro s' hs'
    obtain ⟨-, -, r, hr, -, -, -, hsel⟩ := sink_it__returns env self msg s' hs'
    refine ⟨r, hr, ?_⟩
    cases hl : msg.level <;> rw [hl] at hsel <;>
      simp only [select_color, Prod.mk.injEq, Option.some.injEq] at hsel <;>
      simp_all
  · intro hk h1
    exact sink_it__succeeds env self msg hlv hk
      (fun hnd => List.length_pos.mpr (h1 hnd))

/-- C10 at a critical message: the record is produced, in `COLOR_ERROR` and with
emphasis. -/
theorem sink_it__color_table_witness :
    ∃ r : LogRecord,
      (sample_sink true true true true).sink_it_ (sample_env false)
          (sample_msg .critical "halt") =
        .ok { sample_sink true true true true with
              records_ := (sample_sink true true true true).records_ ++ [r],
              scroll_to_bottom_ := true } ∧
      r.color_ = COLOR_ERROR ∧ r.emphasis_ = true := by
  obtain ⟨hall, hex⟩ := sink_it__color_table (sample_env false)
    (sample_sink true true true true) (sample_msg .critical "halt") (by decide)
  obtain ⟨s', hs'⟩ := hex (by decide) (by decide)
  obtain ⟨r, hr, -, -, -, -, -, hc, he⟩ := hall s' hs'
  exact ⟨r, hr ▸ hs', hc rfl, he.mpr rfl⟩

/-! ## Claims on the properties text, the store and the levels -/

/-- C11: the properties string `sink_it_` builds, and stores in the record it appends, is
the concatenation in the order time, thread, level, logger of `"[" ++ field ++ "] "` for
exactly the enabled fields (formatted time, thread id, short level name, logger name);
with all four disabled it is empty. -/
theorem sink_it__properties_format (env : Env) (self : ImGuiLogSink) (msg : log_msg) :
    (build_properties env self msg).1 =
      bracketed_fields
        [(self.show_time_, env.date_format msg.time),
         (self.show_thread_, decimal msg.thread_id),
         (self.show_level_, to_short_c_str msg.level),
         (self.show_logger_, msg.logger_name)] ∧
    (self.show_time_ = false → self.show_thread_ = false → self.show_level_ = false →
      self.show_logger_ = false → (build_properties env self msg).1 = []) ∧
    (∀ s', self.sink_it_ env msg = .ok s' →
      ∃ r : LogRecord,
        s' = { self with records_ := self.records_ ++ [r], scroll_to_bottom_ := true } ∧
        r.properties_ = (build_properties env self msg).1) := by
  refine ⟨?_, ?_, ?_⟩
  · unfold build_properties bracketed_fields
    cases self.show_time_ <;> cases self.show_thread_ <;> cases self.show_level_ <;>
      cases self.show_logger_ <;> simp
  · intro h1 h2 h3 h4
    unfold build_properties
    simp [h1, h2, h3, h4]
  · intro s' hs'
    obtain ⟨-, -, r, hr, hprops, -⟩ := sink_it__returns env self msg s' hs'
    exact ⟨r, hr, hprops⟩

/-- C11 at an info message with the time column hidden and the other three shown. -/
theorem sink_it__properties_format_witness :
    ∃ r : LogRecord,
      (sample_sink false true true true).sink_it_ (sample_env false)
          (sample_msg .info "ready") =
        .ok { sample_sink false true true true with
              records_ := (sample_sink false true true true).records_ ++ [r],
              scroll_to_bottom_ := true } ∧
      r.properties_ = "[7] [I] [main] ".toList := by
  obtain ⟨heq, -, hall⟩ := sink_it__properties_format (sample_env false)
    (sample_sink false true true true) (sample_msg .info "ready")
  obtain ⟨r, hr, hp⟩ := hall _ rfl
  exact ⟨r, hr ▸ rfl, hp.trans (heq.trans rfl)⟩

/-- C16: whatever the store holds, `Clear` leaves `records_` empty, and `Clear` after
`Clear` gives the same sink as one `Clear`. -/
theorem Clear_idempotent (self : ImGuiLogSink) :
    self.Clear.records_ = [] ∧ self.Clear.Clear = self.Clear :=
  ⟨rfl, rfl⟩

/-- C18: at level `off` the switch of `sink_it_` takes its default branch and leaves
`color` null, so that building the record reads `*color` through a null pointer: on the
payload `hello`, in every build and with every format setting, no record is appended. -/
theorem sink_it__off_null_color (env : Env) (self : ImGuiLogSink)
    (logger_name : List Char) (time thread_id : Nat) :
    (select_color env .off 0 0).1 = none ∧
    self.sink_it_ env
        { logger_name := logger_name, level := .off, time := time, thread_id := thread_id,
          payload := "hello".toList } = .error .null_dereference := by
  have hk : find_skip_to "hello".toList = 0 := rfl
  refine ⟨rfl, ?_⟩
  unfold ImGuiLogSink.sink_it_
  simp only [bind, Except.bind, pure, Except.pure, substr, substr_from, deref, hk,
    select_color]
  cases env.NDEBUG <;> simp

/-- C19: in a build with `NDEBUG` every record `sink_it_` produces has the empty source;
this includes a payload that opens with a tag `[a:d]` (`a` without closing bracket, `d`
digits) followed by one character and `rest`, for which a record is produced at every
level other than `off` with the message `rest`, the tag stripped. A record is produced
whenever the level is not `off` and the skip position lies inside the payload. -/
theorem sink_it__source_discarded (env : Env) (self : ImGuiLogSink) (msg : log_msg)
    (hnd : env.NDEBUG = true) :
    (∀ s', self.sink_it_ env msg = .ok s' →
      ∃ r : LogRecord,
        s' = { self with records_ := self.records_ ++ [r], scroll_to_bottom_ := true } ∧
        r.source_ = []) ∧
    (∀ (a d rest : List Char) (c : Char), msg.level ≠ .off → ']' ∉ a →
      (∀ x ∈ d, isdigit x = true) →
      msg.payload = "[".toList ++ a ++ ":".toList ++ d ++ "]".toList ++ [c] ++ rest →
      msg.payload.length < 2 ^ 64 →
      ∃ r : LogRecord,
        self.sink_it_ env msg =
          .ok { self with records_ := self.records_ ++ [r], scroll_to_bottom_ := true } ∧
        r.source_ = [] ∧ r.message_ = rest) ∧
    (msg.level ≠ .off → find_skip_to msg.payload ≤ msg.payload.length →
      ∃ s', self.sink_it_ env msg = .ok s') := by
  have hsrc : ∀ s', self.sink_it_ env msg = .ok s' →
      ∃ r : LogRecord,
        s' = { self with records_ := self.records_ ++ [r], scroll_to_bottom_ := true } ∧
        r.source_ = [] := by
    intro s' hs'
    obtain ⟨-, -, r, hr, -, hs, -⟩ := sink_it__returns env self msg s' hs'
    refine ⟨r, hr, ?_⟩
    rw [hs]
    simp [hnd]
  refine ⟨hsrc, ?_, ?_⟩
  · intro a d rest c hl ha hd hp hsize
    have hp' : msg.payload = '[' :: (a ++ ':' :: (d ++ ']' :: c :: rest)) := by
      rw [hp]
      simp
    obtain ⟨r, hr, hmsg, -⟩ := sink_it__tag env self msg a d rest c hl ha hd hp' hsize
    obtain ⟨r', hr', hs⟩ := hsrc _ hr
    have hrr : r = r' := by
      have := congrArg ImGuiLogSink.records_ hr'
      simpa using this
    exact ⟨r, hr, hrr ▸ hs, hmsg⟩
  · intro hl hk
    exact sink_it__succeeds env self msg hl hk (fun h => by simp [hnd] at h)

/-- C19 at the payload `[foo.cpp:42] hello world` in a build with `NDEBUG`. -/
theorem sink_it__source_discarded_witness :
    ∃ r : LogRecord,
      (sample_sink true true true true).sink_it_ (sample_env true)
          (sample_msg .info "[foo.cpp:42] hello world") =
        .ok { sample_sink true true true true with
              records_ := (sample_sink true true true true).records_ ++ [r],
              scroll_to_bottom_ := true } ∧
      r.source_ = [] ∧ r.message_ = "hello world".toList :=
  (sink_it__source_discarded (sample_env true) (sample_sink true true true true)
    (sample_msg .info "[foo.cpp:42] hello world") rfl).2.1
    "foo.cpp".toList "42".toList "hello world".toList ' '
    (by decide) (by decide) (by decide) rfl (by decide)

/-! ## Claims on the settings -/

/-- The loop over the logger tables that `SaveSettings` writes sets the level of each
listed logger, in the order of the list. -/
theorem load_loggers_saved {Reg : Type} (api : Registry Reg) (reg : Reg)
    (logs : List (List Char × Int)) :
    load_loggers api reg (logs.map fun log =>
      cpptoml.insert (cpptoml.insert [] "name" (.string log.1)) "level" (.integer log.2))
      = .ok (logs.foldl (fun r log => api.set_level r log.1 log.2) reg) := by
  induction logs generalizing reg with
  | nil => rfl
  | cons log rest ih =>
    simp only [List.map_cons, List.foldl_cons]
    rw [← ih]
    rfl

/-- The `format` table of the document `SaveSettings` writes holds the four format
switches and nothing else. -/
theorem SaveSettings_format {Reg : Type} (api : Registry Reg) (saving : ImGuiLogSink)
    (reg0 : Reg) :
    cpptoml.get_table (saving.SaveSettings api reg0) "format" =
      some [("show-logger", .boolean saving.show_logger_),
        ("show-level", .boolean saving.show_level_),
        ("show-thread", .boolean saving.show_thread_),
        ("show-time", .boolean saving.show_time_)] :=
  rfl

/-- The `loggers` array of the document `SaveSettings` writes holds one table per listed
logger. -/
theorem SaveSettings_loggers {Reg : Type} (api : Registry Reg) (saving : ImGuiLogSink)
    (reg0 : Reg) :
    cpptoml.get_table_array (saving.SaveSettings api reg0) "loggers" =
      some ((api.Loggers reg0).map fun log =>
        cpptoml.insert (cpptoml.insert [] "name" (.string log.1)) "level"
          (.integer log.2)) :=
  rfl

/-- C12: reading the document that `SaveSettings` wrote for the sink `saving` into the
sink `fresh`, `LoadSettings` returns with the four format switches of `saving`, but with
the scroll lock and the soft wrap that `fresh` had before: it looks both keys up in the
`format` table, while `SaveSettings` writes them to the root table. The two values of
`saving` are in the document, and they are lost whenever they differ from those of
`fresh`. -/
theorem LoadSettings_after_SaveSettings {Reg : Type} (api : Registry Reg)
    (saving fresh : ImGuiLogSink) (reg0 reg1 : Reg) :
    fresh.LoadSettings api reg1 (.parsed (saving.SaveSettings api reg0)) =
      .ok ({ fresh with
              show_time_ := saving.show_time_
              show_thread_ := saving.show_thread_
              show_level_ := saving.show_level_
              show_logger_ := saving.show_logger_
              scroll_lock_ := fresh.scroll_lock_
              wrap_ := fresh.wrap_ },
           (api.Loggers reg0).foldl (fun r log => api.set_level r log.1 log.2) reg1) ∧
    cpptoml.get_as_bool (saving.SaveSettings api reg0) "scroll-lock"
      = some saving.scroll_lock_ ∧
    cpptoml.get_as_bool (saving.SaveSettings api reg0) "soft-wrap" = some saving.wrap_ := by
  refine ⟨?_, rfl, rfl⟩
  unfold ImGuiLogSink.LoadSettings
  simp only [SaveSettings_loggers, SaveSettings_format, load_loggers_saved, bind,
    Except.bind, pure, Except.pure]
  rfl

/-- C13: on a parsed document without a `format` table, `LoadSettings` reaches
`format->contains("scroll-lock")` with a null `format`: it fails on the empty document and
on a document that only has the two root keys, in place of keeping the prior values. -/
theorem LoadSettings_without_format {Reg : Type} (api : Registry Reg) (self : ImGuiLogSink)
    (reg : Reg) :
    self.LoadSettings api reg (.parsed []) = .error .null_dereference ∧
    self.LoadSettings api reg
      (.parsed [("scroll-lock", .boolean true), ("soft-wrap", .boolean true)])
      = .error .null_dereference ∧
    ConfigSanityChecks [("scroll-lock", .boolean true), ("soft-wrap", .boolean true)]
      = ["missing \x27loggers\x27 in config", "missing \x27format\x27 in config"] :=
  ⟨rfl, rfl, rfl⟩

/-- C14: when the settings file is missing, or is there and cannot be parsed,
`LoadSettings` returns, and the six booleans of the sink and the levels of all loggers
are what they were before the call. -/
theorem LoadSettings_without_document {Reg : Type} (api : Registry Reg)
    (self : ImGuiLogSink) (reg : Reg) (file : settings_file)
    (hfile : file = .missing ∨ file = .malformed) :
    ∃ s reg', self.LoadSettings api reg file = .ok (s, reg') ∧
      s.show_time_ = self.show_time_ ∧ s.show_thread_ = self.show_thread_ ∧
      s.show_level_ = self.show_level_ ∧ s.show_logger_ = self.show_logger_ ∧
      s.wrap_ = self.wrap_ ∧ s.scroll_lock_ = self.scroll_lock_ ∧
      api.Loggers reg' = api.Loggers reg := by
  rcases hfile with h | h <;> subst h <;>
    exact ⟨self, reg, rfl, rfl, rfl, rfl, rfl, rfl, rfl, rfl⟩

/-- C14 at a sink that shows all four columns and a registry with one logger, when the
file cannot be parsed. -/
theorem LoadSettings_without_document_witness :
    ∃ s reg', (sample_sink true true true true).LoadSettings sample_registry
        [("main".toList, 2)] .malformed = .ok (s, reg') ∧
      s.show_time_ = (sample_sink true true true true).show_time_ ∧
      s.show_thread_ = (sample_sink true true true true).show_thread_ ∧
      s.show_level_ = (sample_sink true true true true).show_level_ ∧
      s.show_logger_ = (sample_sink true true true true).show_logger_ ∧
      s.wrap_ = (sample_sink true true true true).wrap_ ∧
      s.scroll_lock_ = (sample_sink true true true true).scroll_lock_ ∧
      sample_registry.Loggers reg' = sample_registry.Loggers [("main".toList, 2)] :=
  LoadSettings_without_document sample_registry (sample_sink true true true true)
    [("main".toList, 2)] .malformed (Or.inr rfl)

/-! ## Claims on the order of the store and on the display filter -/

/-- The record loop draws the records that pass the test, in the order of the store. -/
theorem draw_records_visits (asserts : Bool) (f : ImGuiTextFilter) (rs : List LogRecord)
    (out : List (LogRecord × DrawnGroup)) (h : draw_records asserts f rs = .ok out) :
    out.map (fun p => p.1) = rs.filter fun r =>
      !f.IsActive || f.PassFilter r.properties_ || f.PassFilter r.source_ ||
        f.PassFilter r.message_ := by
  induction rs generalizing out with
  | nil =>
    simp only [draw_records, Except.ok.injEq] at h
    subst h
    rfl
  | cons r rest ih =>
    simp only [draw_records] at h
    split at h
    · rename_i hc
      split at h
      · exact absurd h (by simp)
      · rename_i g hg
        split at h
        · exact absurd h (by simp)
        · rename_i gs hgs
          simp only [Except.ok.injEq] at h
          subst h
          simp only [List.map_cons, List.filter_cons, hc, if_true, ih gs hgs]
    · rename_i hc
      simp only [List.filter_cons, hc, if_false, Bool.false_eq_true]
      exact ih out h

/-- The record loop returns when the body returns on every record of the store. -/
theorem draw_records_returns (asserts : Bool) (f : ImGuiTextFilter) (rs : List LogRecord)
    (h : ∀ r ∈ rs, ∃ g, draw_record asserts r = .ok g) :
    ∃ out, draw_records asserts f rs = .ok out := by
  induction rs with
  | nil => exact ⟨[], rfl⟩
  | cons r rest ih =>
    obtain ⟨g, hg⟩ := h r (List.mem_cons_self _ _)
    obtain ⟨gs, hgs⟩ := ih (fun x hx => h x (List.mem_cons_of_mem _ hx))
    simp only [draw_records, hg, hgs]
    split
    · exact ⟨_, rfl⟩
    · exact ⟨_, rfl⟩

/-- The properties text depends on the sink through the four format switches only. -/
theorem build_properties_congr (env : Env) (s1 s2 : ImGuiLogSink) (msg : log_msg)
    (ht : s1.show_time_ = s2.show_time_) (hth : s1.show_thread_ = s2.show_thread_)
    (hl : s1.show_level_ = s2.show_level_) (hlg : s1.show_logger_ = s2.show_logger_) :
    build_properties env s1 msg = build_properties env s2 msg := by
  unfold build_properties
  rw [ht, hth, hl, hlg]

/-- The record `sink_it_` appends depends on the sink through the four format switches
only: two sinks that agree on them append the same record for the same message. -/
theorem sink_it__congr (env : Env) (s1 s2 : ImGuiLogSink) (msg : log_msg) (r : LogRecord)
    (ht : s1.show_time_ = s2.show_time_) (hth : s1.show_thread_ = s2.show_thread_)
    (hl : s1.show_level_ = s2.show_level_) (hlg : s1.show_logger_ = s2.show_logger_)
    (h : s1.sink_it_ env msg =
      .ok { s1 with records_ := s1.records_ ++ [r], scroll_to_bottom_ := true }) :
    s2.sink_it_ env msg =
      .ok { s2 with records_ := s2.records_ ++ [r], scroll_to_bottom_ := true } := by
  obtain ⟨hk, h1, r1, hr1, hp1, hs1, hm1, hc1⟩ := sink_it__returns env s1 msg _ h
  have hrr : r = r1 := by
    have := congrArg ImGuiLogSink.records_ hr1
    simpa using this
  subst hrr
  have hoff : msg.level ≠ .off := by
    intro hoff
    rw [hoff] at hc1
    simp [select_color] at hc1
  obtain ⟨s2', hs2'⟩ := sink_it__succeeds env s2 msg hoff hk h1
  obtain ⟨-, -, r2, hr2, hp2, hs2, hm2, hc2⟩ := sink_it__returns env s2 msg s2' hs2'
  have hbp := build_properties_congr env s1 s2 msg ht hth hl hlg
  rw [← hbp] at hp2 hc2
  have hrr : r2 = r := by
    cases r
    cases r2
    simp only [Prod.mk.injEq, Option.some.injEq] at *
    rw [← hc1] at hc2
    simp only [Prod.mk.injEq, Option.some.injEq] at hc2
    simp [hp1, hp2, hs1, hs2, hm1, hm2, hc2]
  rw [hs2', hr2, hrr]

/-- A sequence of calls that returns has kept the four format switches and has appended,
behind the records that were there, one record per message in the order of the calls;
each is the record the call appends on the first sink. -/
theorem sink_all_appends (env : Env) (self : ImGuiLogSink) (msgs : List log_msg)
    (s' : ImGuiLogSink) (h : sink_all env self msgs = .ok s') :
    ∃ rs : List LogRecord,
      s'.records_ = self.records_ ++ rs ∧
      (s'.show_time_ = self.show_time_ ∧ s'.show_thread_ = self.show_thread_ ∧
        s'.show_level_ = self.show_level_ ∧ s'.show_logger_ = self.show_logger_) ∧
      List.Forall₂ (fun m r => self.sink_it_ env m =
        .ok { self with records_ := self.records_ ++ [r], scroll_to_bottom_ := true })
        msgs rs := by
  induction msgs generalizing self with
  | nil =>
    simp only [sink_all, Except.ok.injEq] at h
    subst h
    exact ⟨[], by simp, ⟨rfl, rfl, rfl, rfl⟩, List.Forall₂.nil⟩
  | cons m ms ih =>
    simp only [sink_all] at h
    split at h
    · rename_i s1 hs1
      obtain ⟨-, -, r, hr, -⟩ := sink_it__returns env self m s1 hs1
      obtain ⟨rs, hrec, ⟨ht, hth, hl, hlg⟩, hall⟩ := ih s1 h
      have ht1 : s1.show_time_ = self.show_time_ := by rw [hr]
      have hth1 : s1.show_thread_ = self.show_thread_ := by rw [hr]
      have hl1 : s1.show_level_ = self.show_level_ := by rw [hr]
      have hlg1 : s1.show_logger_ = self.show_logger_ := by rw [hr]
      have hrec1 : s1.records_ = self.records_ ++ [r] := by rw [hr]
      refine ⟨r :: rs, ?_, ⟨ht.trans ht1, hth.trans hth1, hl.trans hl1, hlg.trans hlg1⟩, ?_⟩
      · rw [hrec, hrec1]
        simp
      · refine List.Forall₂.cons (hr ▸ hs1) ?_
        exact hall.imp fun m' r' hm' => sink_it__congr env s1 self m' r' ht1 hth1 hl1 hlg1 hm'
    · exact absurd h (by simp)

/-- C15: a call of `sink_it_` that returns has appended one record at the end of
`records_` and left the records before it as they were; a sequence of calls, one per
message of `msgs`, leaves behind the records that were there exactly one record per
message, in the order of the calls (on an empty store: exactly `msgs.length` records);
and the record loop of `Draw` visits the store in that order: what it draws is a
sublist of the store, the whole store when the filter is inactive. -/
theorem sink_it__appends_in_call_order (env : Env) (self : ImGuiLogSink)
    (msgs : List log_msg) (s' : ImGuiLogSink) (h : sink_all env self msgs = .ok s') :
    (∀ msg s1, self.sink_it_ env msg = .ok s1 →
      ∃ r : LogRecord, s1.records_ = self.records_ ++ [r]) ∧
    ∃ rs : List LogRecord,
      s'.records_ = self.records_ ++ rs ∧
      rs.length = msgs.length ∧
      (self.records_ = [] → s'.records_.length = msgs.length) ∧
      List.Forall₂ (fun m r => self.sink_it_ env m =
        .ok { self with records_ := self.records_ ++ [r], scroll_to_bottom_ := true })
        msgs rs ∧
      (∀ asserts display_filter_ out, s'.Draw asserts display_filter_ = .ok out →
        (out.map fun p => p.1).Sublist (self.records_ ++ rs) ∧
        (display_filter_.IsActive = false → out.map (fun p => p.1) = self.records_ ++ rs)) := by
  constructor
  · intro msg s1 hs1
    obtain ⟨-, -, r, hr, -⟩ := sink_it__returns env self msg s1 hs1
    exact ⟨r, by rw [hr]⟩
  · obtain ⟨rs, hrec, -, hall⟩ := sink_all_appends env self msgs s' h
    have hlen : rs.length = msgs.length := hall.length_eq.symm
    refine ⟨rs, hrec, hlen, ?_, hall, ?_⟩
    · intro he
      rw [hrec, he]
      simpa using hlen
    · intro asserts f out hout
      have hv := draw_records_visits asserts f s'.records_ out hout
      rw [hrec] at hv
      constructor
      · rw [hv]
        exact List.filter_sublist _
      · intro hi
        rw [hv]
        simp [hi]

/-- C15 at the three sample messages on an empty store: the store then holds their three
records in the order of the calls, and `Draw` with an inactive filter draws them in that
order. -/
theorem sink_it__appends_in_call_order_witness :
    ∃ s', sink_all (sample_env false) (sample_sink true true true true) sample_msgs
        = .ok s' ∧
      s'.records_.length = 3 ∧
      s'.records_.map LogRecord.message_ =
        ["connected".toList, "nearly full".toList, "sent".toList] ∧
      ∃ out, s'.Draw true inactive_filter = .ok out ∧
        out.map (fun p => p.1) = s'.records_ := by
  have hrun : ∃ s', sink_all (sample_env false) (sample_sink true true true true)
      sample_msgs = .ok s' ∧
      s'.records_.map LogRecord.message_ =
        ["connected".toList, "nearly full".toList, "sent".toList] ∧
      ∃ out, s'.Draw true inactive_filter = .ok out := ⟨_, rfl, rfl, _, rfl⟩
  obtain ⟨s', hs', hmsg, out, hout⟩ := hrun
  obtain ⟨-, rs, hrec, -, hlen, -, hdraw⟩ := sink_it__appends_in_call_order
    (sample_env false) (sample_sink true true true true) sample_msgs s' hs'
  refine ⟨s', hs', hlen rfl, hmsg, out, hout, ?_⟩
  rw [hrec]
  exact (hdraw true inactive_filter out hout).2 rfl

/-! ## Claims on the rendering of a record -/

/-- C21: with the time and level columns shown and the logger column hidden, the record
of a debug message has `color_range_start_ = 24 > 0` and `color_range_end_ = 28`, the
length of its properties: the level tag is the last column. The first two assertions of
`Draw` hold and the third, `color_range_end_ < props_len`, does not, so that a build that
compiles assertions in stops in `Draw` on a record that `sink_it_` produced. -/
theorem Draw_assertion_fails_on_last_column :
    ∃ r : LogRecord,
      (sample_sink true false true false).sink_it_ (sample_env false)
          (sample_msg .debug "ready") =
        .ok { sample_sink true false true false with
              records_ := [r], scroll_to_bottom_ := true } ∧
      r.properties_ = "[01/01/19 00:00:00 UTC] [D] ".toList ∧
      r.color_range_start_ = 24 ∧ r.color_range_end_ = 28 ∧ r.properties_.length = 28 ∧
      r.color_range_start_ < r.properties_.length ∧
      r.color_range_end_ > r.color_range_start_ ∧
      ¬ (r.color_range_end_ < r.properties_.length) ∧
      draw_record true r = .error .assertion_failed :=
  ⟨_, rfl, rfl, rfl, rfl, rfl, by decide, by decide, by decide, rfl⟩

/-- C22: with the time and thread columns hidden and the level column shown, the record
of a debug message has the range (0, 4) on the properties `[D] [main] `; `Draw` tests
`color_range_start_ > 0`, takes its other branch and emits the properties as one
uncoloured text: the level tag is not drawn in the colour of the record. -/
theorem Draw_level_tag_first_uncoloured :
    ∃ r : LogRecord,
      (sample_sink false false true true).sink_it_ (sample_env false)
          (sample_msg .debug "ready") =
        .ok { sample_sink false false true true with
              records_ := [r], scroll_to_bottom_ := true } ∧
      r.color_range_start_ = 0 ∧ r.color_range_end_ = 4 ∧
      draw_record false r =
        .ok { bold := false
              calls := [DrawCall.TextUnformatted "[D] [main] ".toList,
                DrawCall.TextUnformatted "ready".toList] } :=
  ⟨_, rfl, rfl, rfl, rfl⟩

/-- C25: for every record `sink_it_` produces at a level from trace to critical,
`color_range_end_ = 1` holds exactly at the levels trace, warn, err and critical; at debug
and info `color_range_end_` is 0 or `color_range_start_ + 4`, and so is not 1. A record
is produced whenever the skip position lies inside the payload and, in a build without
`NDEBUG`, the payload is not empty. -/
theorem sink_it__sentinel_unambiguous (env : Env) (self : ImGuiLogSink) (msg : log_msg)
    (hlv : msg.level ≠ .off) :
    (∀ s', self.sink_it_ env msg = .ok s' →
      ∃ r : LogRecord,
        s' = { self with records_ := self.records_ ++ [r], scroll_to_bottom_ := true } ∧
        (r.color_range_end_ = 1 ↔
          (msg.level = .trace ∨ msg.level = .warn ∨ msg.level = .err ∨
            msg.level = .critical)) ∧
        (msg.level = .debug ∨ msg.level = .info →
          (r.color_range_end_ = 0 ∨ r.color_range_end_ = r.color_range_start_ + 4) ∧
          r.color_range_end_ ≠ 1)) ∧
    (find_skip_to msg.payload ≤ msg.payload.length →
      (env.NDEBUG = false → msg.payload ≠ []) →
      ∃ s', self.sink_it_ env msg = .ok s') := by
  constructor
  · intro s' hs'
    obtain ⟨-, -, r, hr, -, -, -, hsel⟩ := sink_it__returns env self msg s' hs'
    have hrange : (build_properties env self msg).2.2 = 0 ∧
          (build_properties env self msg).2.1 = 0 ∨
        (build_properties env self msg).2.2 = (build_properties env self msg).2.1 + 4 := by
      cases hsl : self.show_level_
      · exact Or.inl ⟨(build_properties_hide_level env self msg hsl).2,
          (build_properties_hide_level env self msg hsl).1⟩
      · exact Or.inr (build_properties_show_level env self msg hsl).1
    refine ⟨r, hr, ?_⟩
    cases hl : msg.level <;> rw [hl] at hsel <;>
      simp only [select_color, Prod.mk.injEq, Option.some.injEq] at hsel
    case off => exact absurd hl hlv
    all_goals
      obtain ⟨-, hs, he, -⟩ := hsel
      rw [hs, he]
      simp
      try omega
  · intro hk h1
    exact sink_it__succeeds env self msg hlv hk
      (fun hnd => List.length_pos.mpr (h1 hnd))

/-- C25 at an info message with all four columns shown: the record is produced and its
range ends four behind its start. -/
theorem sink_it__sentinel_unambiguous_witness :
    ∃ r : LogRecord,
      (sample_sink true true true true).sink_it_ (sample_env false)
          (sample_msg .info "ready") =
        .ok { sample_sink true true true true with
              records_ := (sample_sink true true true true).records_ ++ [r],
              scroll_to_bottom_ := true } ∧
      (r.color_range_end_ = 0 ∨ r.color_range_end_ = r.color_range_start_ + 4) ∧
      r.color_range_end_ ≠ 1 := by
  obtain ⟨hall, hex⟩ := sink_it__sentinel_unambiguous (sample_env false)
    (sample_sink true true true true) (sample_msg .info "ready") (by decide)
  obtain ⟨s', hs'⟩ := hex (by decide) (by decide)
  obtain ⟨r, hr, -, h⟩ := hall s' hs'
  exact ⟨r, hr ▸ hs', (h (Or.inr rfl)).1, (h (Or.inr rfl)).2⟩

/-- What the loop yields for a record is what its body emitted for that record. -/
theorem draw_records_groups (asserts : Bool) (f : ImGuiTextFilter) (rs : List LogRecord)
    (out : List (LogRecord × DrawnGroup)) (h : draw_records asserts f rs = .ok out) :
    ∀ p ∈ out, draw_record asserts p.1 = .ok p.2 := by
  induction rs generalizing out with
  | nil =>
    simp only [draw_records, Except.ok.injEq] at h
    subst h
    intro p hp
    exact absurd hp (List.not_mem_nil _)
  | cons r rest ih =>
    simp only [draw_records] at h
    split at h
    · split at h
      · exact absurd h (by simp)
      · rename_i g hg
        split at h
        · exact absurd h (by simp)
        · rename_i gs hgs
          simp only [Except.ok.injEq] at h
          subst h
          intro p hp
          rcases List.mem_cons.mp hp with hp | hp
          · subst hp
            exact hg
          · exact ih gs hgs p hp
    · exact ih out h

/-- When a step followed by a continuation returns a result, the step has returned a
value and the continuation has returned the result on that value. -/
theorem bind_returns {α β : Type} (step : Except Failure α) (next : α → Except Failure β)
    (result : β) (h : (step >>= next) = Except.ok result) :
    ∃ v, step = Except.ok v ∧ next v = Except.ok result :=
  match step, h with
  | Except.ok v, h => ⟨v, rfl, h⟩
  | Except.error _, h => Except.noConfusion h

/-- The body of the loop ends with the text call for the message: coloured when
`color_range_end_` is 1 and uncoloured otherwise, on the C string of the message. -/
theorem draw_record_message (asserts : Bool) (r : LogRecord) (g : DrawnGroup)
    (h : draw_record asserts r = .ok g) :
    ∃ props_calls : List DrawCall,
      g.calls = props_calls ++
        [if r.color_range_end_ = 1 then DrawCall.TextColored r.color_ (c_str r.message_)
         else DrawCall.TextUnformatted (c_str r.message_)] := by
  unfold draw_record at h
  dsimp only at h
  split at h
  · obtain ⟨_, -, h⟩ := bind_returns _ _ _ h
    obtain ⟨_, -, h⟩ := bind_returns _ _ _ h
    obtain ⟨_, -, h⟩ := bind_returns _ _ _ h
    obtain ⟨part1, -, h⟩ := bind_returns _ _ _ h
    obtain ⟨part2, -, h⟩ := bind_returns _ _ _ h
    obtain ⟨part3, -, h⟩ := bind_returns _ _ _ h
    simp only [pure, Except.pure, bind, Except.bind, Except.ok.injEq] at h
    subst h
    exact ⟨_, rfl⟩
  · split at h
    · rename_i he
      simp only [pure, Except.pure, bind, Except.bind, Except.ok.injEq] at h
      subst h
      exact ⟨[DrawCall.TextColored r.color_ (c_str r.properties_)], by simp [he]⟩
    · rename_i he
      simp only [pure, Except.pure, bind, Except.bind, Except.ok.injEq] at h
      subst h
      exact ⟨[DrawCall.TextUnformatted (c_str r.properties_)], by simp [he]⟩

/-- A string without a NUL is the C string it is handed over as. -/
theorem c_str_eq_self (s : List Char) (h : Char.ofNat 0 ∉ s) : c_str s = s := by
  unfold c_str
  rw [List.takeWhile_eq_self_iff]
  intro c hc
  have : c ≠ Char.ofNat 0 := fun e => h (e ▸ hc)
  simpa using this

/-- C23, as stated, fails: the info message with the payload `a`, NUL, `b` is stored with
that message, and `Draw` emits for it the text `a`, the C string of the message. -/
theorem Draw_message_cut_at_nul :
    ∃ (r : LogRecord) (g : DrawnGroup),
      (sample_sink false false false false).sink_it_ (sample_env true)
          { logger_name := "main".toList, level := .info, time := 0, thread_id := 7,
            payload := ['a', Char.ofNat 0, 'b'] } =
        .ok { sample_sink false false false false with
              records_ := [r], scroll_to_bottom_ := true } ∧
      r.message_ = ['a', Char.ofNat 0, 'b'] ∧
      draw_record true r = .ok g ∧
      g.calls = [DrawCall.TextUnformatted [], DrawCall.TextUnformatted ['a']] ∧
      DrawCall.TextUnformatted ['a'] ≠ DrawCall.TextUnformatted r.message_ :=
  ⟨_, _, rfl, rfl, rfl, rfl, by decide⟩

/-- C23, amended: for every record the loop of `Draw` draws, the last text call is the
one for the message, in the colour of the record when `color_range_end_` is 1 and
uncoloured otherwise; its text is the message up to its first NUL, which is the stored
message unchanged when the message holds no NUL. -/
theorem Draw_message_colouring (asserts : Bool) (display_filter_ : ImGuiTextFilter)
    (self : ImGuiLogSink) (out : List (LogRecord × DrawnGroup))
    (h : self.Draw asserts display_filter_ = .ok out) :
    ∀ p ∈ out,
      (∃ props_calls : List DrawCall,
        p.2.calls = props_calls ++
          [if p.1.color_range_end_ = 1 then
             DrawCall.TextColored p.1.color_ (c_str p.1.message_)
           else DrawCall.TextUnformatted (c_str p.1.message_)]) ∧
      c_str p.1.message_ <+: p.1.message_ ∧
      (Char.ofNat 0 ∉ p.1.message_ → c_str p.1.message_ = p.1.message_) := by
  intro p hp
  have hg := draw_records_groups asserts display_filter_ self.records_ out h p hp
  exact ⟨draw_record_message asserts p.1 p.2 hg, List.takeWhile_prefix _,
    c_str_eq_self p.1.message_⟩

/-- C23, amended, at the sample store with an inactive filter: the three messages are
drawn unchanged, the second, a warning, in `COLOR_WARN`. -/
theorem Draw_message_colouring_witness :
    ∃ out, sample_store.Draw true inactive_filter = .ok out ∧
      out.map (fun p => p.2.calls.getLast?) =
        [some (DrawCall.TextUnformatted "connected".toList),
         some (DrawCall.TextColored COLOR_WARN "nearly full".toList),
         some (DrawCall.TextUnformatted "sent".toList)] ∧
      ∀ p ∈ out,
        (∃ props_calls : List DrawCall,
          p.2.calls = props_calls ++
            [if p.1.color_range_end_ = 1 then
               DrawCall.TextColored p.1.color_ (c_str p.1.message_)
             else DrawCall.TextUnformatted (c_str p.1.message_)]) ∧
        c_str p.1.message_ <+: p.1.message_ ∧
        (Char.ofNat 0 ∉ p.1.message_ → c_str p.1.message_ = p.1.message_) :=
  ⟨_, rfl, rfl, Draw_message_colouring true inactive_filter sample_store _ rfl⟩

/-- C24, as stated, fails: in the run of `Draw` on the sample store the first record is
drawn right after the lock is taken, and the lock is released only as the last event. -/
theorem Draw_draws_under_lock_example :
    ∃ (r : LogRecord) (g : DrawnGroup) (rest : List DrawEvent),
      sample_store.Draw_events true inactive_filter =
        .ok (DrawEvent.lock_shared :: DrawEvent.draw r g :: rest) ∧
      r.message_ = "connected".toList ∧
      rest.length = 3 ∧ rest.getLast? = some DrawEvent.unlock_shared ∧
      DrawEvent.unlock_shared ∉ rest.dropLast :=
  ⟨_, _, _, rfl, rfl, rfl, rfl, by decide⟩

/-- C24, amended: in `Draw` the shared lock on `records_` is taken before the record loop
and released behind it, where the block of the loop ends: the events of the block are the
taking of the lock, then the records the loop draws, in order, then the release, so that
every text of a record is drawn while the lock is held. -/
theorem Draw_draws_under_lock (asserts : Bool) (display_filter_ : ImGuiTextFilter)
    (self : ImGuiLogSink) (events : List DrawEvent)
    (h : self.Draw_events asserts display_filter_ = .ok events) :
    ∃ out, self.Draw asserts display_filter_ = .ok out ∧
      events = [DrawEvent.lock_shared] ++ out.map (fun p => DrawEvent.draw p.1 p.2) ++
        [DrawEvent.unlock_shared] ∧
      ∀ (pre post : List DrawEvent) (r : LogRecord) (g : DrawnGroup),
        events = pre ++ DrawEvent.draw r g :: post →
        DrawEvent.lock_shared ∈ pre ∧ DrawEvent.unlock_shared ∉ pre ∧
          DrawEvent.unlock_shared ∈ post := by
  unfold ImGuiLogSink.Draw_events at h
  split at h
  · exact absurd h (by simp)
  · rename_i out hout
    simp only [Except.ok.injEq] at h
    refine ⟨out, hout, h.symm, ?_⟩
    intro pre post r g he
    rw [← h] at he
    have hno : DrawEvent.unlock_shared ∉ out.map (fun p => DrawEvent.draw p.1 p.2) := by
      simp
    cases pre with
    | nil => simp at he
    | cons e pre' =>
      simp only [List.singleton_append, List.cons_append, List.cons.injEq] at he
      obtain ⟨he1, he2⟩ := he
      subst he1
      rcases List.append_eq_append_iff.mp he2 with ⟨a', -, ha'⟩ | ⟨c', hc1, hc2⟩
      · cases a' with
        | nil => simp at ha'
        | cons x xs =>
          simp only [List.cons_append, List.cons.injEq] at ha'
          have := ha'.2
          simp at this
      · refine ⟨List.mem_cons_self _ _, ?_, ?_⟩
        · intro hmem
          rcases List.mem_cons.mp hmem with hm | hm
          · exact absurd hm (by simp)
          · have hc1' : out.map (fun p => DrawEvent.draw p.1 p.2) = pre' ++ c' := by
              simpa using hc1
            exact hno (hc1' ▸ List.mem_append_left _ hm)
        · cases c' with
          | nil => simp at hc2
          | cons x xs =>
            simp only [List.cons_append, List.cons.injEq] at hc2
            rw [hc2.2]
            simp

/-- C24, amended, at the sample store with an inactive filter: the three records are
drawn between the taking and the release of the lock. -/
theorem Draw_draws_under_lock_witness :
    ∃ out, sample_store.Draw true inactive_filter = .ok out ∧
      out.length = 3 ∧
      ∀ (pre post : List DrawEvent) (r : LogRecord) (g : DrawnGroup),
        [DrawEvent.lock_shared] ++ out.map (fun p => DrawEvent.draw p.1 p.2) ++
            [DrawEvent.unlock_shared] = pre ++ DrawEvent.draw r g :: post →
        DrawEvent.lock_shared ∈ pre ∧ DrawEvent.unlock_shared ∉ pre ∧
          DrawEvent.unlock_shared ∈ post := by
  obtain ⟨out, hout, hev, hall⟩ := Draw_draws_under_lock true inactive_filter sample_store
    _ rfl
  have hlen : out.length = 3 := by
    have h3 : ∃ o, sample_store.Draw true inactive_filter = .ok o ∧ o.length = 3 :=
      ⟨_, rfl, rfl⟩
    obtain ⟨o, ho, hl⟩ := h3
    rw [hout] at ho
    simp only [Except.ok.injEq] at ho
    rw [ho]
    exact hl
  exact ⟨out, hout, hlen, fun pre post r g he => hall pre post r g (hev.trans he)⟩

/-! ## Claims on the bracket scan -/

/-- The forward scan stops on the first closing bracket, given by its index. -/
theorem scan_forward_first (l : List Char) (i j : Nat) (hj : j < l.length)
    (hclose : char_at l j = ']') (hfirst : ∀ m, m < j → char_at l m ≠ ']') :
    scan_forward l i = i + j := by
  induction l generalizing i j with
  | nil => simp at hj
  | cons c cs ih =>
    cases j with
    | zero =>
      rw [char_at_cons_zero] at hclose
      simp [scan_forward, hclose]
    | succ n =>
      have hc : c ≠ ']' := by
        have := hfirst 0 (Nat.succ_pos n)
        rwa [char_at_cons_zero] at this
      have hn : n < cs.length := by
        simp only [List.length_cons] at hj
        omega
      have hcl : char_at cs n = ']' := by
        rwa [char_at_cons_succ] at hclose
      have hf : ∀ m, m < n → char_at cs m ≠ ']' := by
        intro m hm
        have := hfirst (m + 1) (by omega)
        rwa [char_at_cons_succ] at this
      simp only [scan_forward, ne_eq, hc, not_false_eq_true, if_true]
      rw [ih (i + 1) n hn hcl hf]
      omega

/-- The backward scan from `j` stops on the greatest index below `j` that holds a
character other than a digit. -/
theorem scan_back_stop (s : List Char) (j k : Nat) (hk : k < j)
    (hnd : isdigit (char_at s k) = false)
    (hdig : ∀ m, k < m → m < j → isdigit (char_at s m) = true) :
    scan_back s j = k := by
  induction j with
  | zero => omega
  | succ n ih =>
    by_cases hkn : k = n
    · subst hkn
      simp [scan_back, hnd]
    · have hlt : k < n := by omega
      have hd := hdig n hlt (Nat.lt_succ_self n)
      have hne := isdigit_ne_colon _ hd
      simp only [scan_back, hne, hd, Bool.true_eq_false, or_self, if_false]
      exact ih hlt (fun m h1 h2 => hdig m h1 (by omega))

/-- C26: for a payload that starts with an opening bracket and has its first closing
bracket at index `j`, with `k` the greatest index below `j` that holds a character other
than a digit, when that character is not a colon `sink_it_` (at a level other than
`off`) appends a record whose message is the payload from index `k` on; the message is
the whole payload exactly when `k = 0`, and it is a suffix of the payload. -/
theorem sink_it__rejected_bracket_message (env : Env) (self : ImGuiLogSink) (msg : log_msg)
    (j k : Nat) (hl : msg.level ≠ .off) (hopen : char_at msg.payload 0 = '[')
    (hj : j < msg.payload.length) (hclose : char_at msg.payload j = ']')
    (hfirst : ∀ m, m < j → char_at msg.payload m ≠ ']')
    (hk : k < j) (hnd : isdigit (char_at msg.payload k) = false)
    (hdig : ∀ m, k < m → m < j → isdigit (char_at msg.payload m) = true)
    (hnc : char_at msg.payload k ≠ ':') :
    ∃ r : LogRecord,
      self.sink_it_ env msg =
        .ok { self with records_ := self.records_ ++ [r], scroll_to_bottom_ := true } ∧
      r.message_ = msg.payload.drop k ∧
      (r.message_ = msg.payload ↔ k = 0) ∧
      r.message_ <:+ msg.payload := by
  have hfwd : scan_forward msg.payload 0 = j := by
    rw [scan_forward_first msg.payload 0 j hj hclose hfirst]
    omega
  have hback : scan_back msg.payload j = k := scan_back_stop msg.payload j k hk hnd hdig
  have hskip : find_skip_to msg.payload = k := by
    unfold find_skip_to
    simp only [hopen, if_true, hfwd, hback]
    rw [if_neg (by omega), if_neg hnc]
  obtain ⟨s', hs'⟩ := sink_it__succeeds env self msg hl (by omega) (by intro _; omega)
  obtain ⟨-, -, r, hr, -, -, hmsg, -⟩ := sink_it__returns env self msg s' hs'
  rw [hskip] at hmsg
  refine ⟨r, hr ▸ hs', hmsg, ?_, ?_⟩
  · rw [hmsg]
    constructor
    · intro h
      have := congrArg List.length h
      simp only [List.length_drop] at this
      omega
    · intro h
      rw [h]
      rfl
  · rw [hmsg]
    exact List.drop_suffix _ _

/-- C26 at the payload `[WARN] disk full`: the closing bracket is at index 5, the `N`
before it at index 4, and the message is `N] disk full`. -/
theorem sink_it__rejected_bracket_message_witness :
    ∃ r : LogRecord,
      (sample_sink true true true true).sink_it_ (sample_env false)
          (sample_msg .info "[WARN] disk full") =
        .ok { sample_sink true true true true with
              records_ := (sample_sink true true true true).records_ ++ [r],
              scroll_to_bottom_ := true } ∧
      r.message_ = "N] disk full".toList := by
  obtain ⟨r, hr, hmsg, -, -⟩ := sink_it__rejected_bracket_message (sample_env false)
    (sample_sink true true true true) (sample_msg .info "[WARN] disk full") 5 4
    (by decide) (by decide) (by decide) (by decide) (by decide) (by decide) (by decide)
    (fun m h1 h2 => by omega) (by decide)
  exact ⟨r, hr, hmsg.trans rfl⟩

/-- C27: for a payload `"[" ++ a ++ ":]" ++ [c] ++ rest`, where `a` has no closing bracket
and `c` is any one character, `sink_it_` (at a level other than `off`) takes the bracket
as a location tag: the message of the appended record is `rest`. The payload has a size
below `2 ^ 64`, as every `std::string` has. -/
theorem sink_it__accepts_tag_without_digits (env : Env) (self : ImGuiLogSink)
    (msg : log_msg) (a rest : List Char) (c : Char) (hl : msg.level ≠ .off)
    (ha : ']' ∉ a)
    (hp : msg.payload = "[".toList ++ a ++ ":]".toList ++ [c] ++ rest)
    (hsize : msg.payload.length < 2 ^ 64) :
    ∃ r : LogRecord,
      self.sink_it_ env msg =
        .ok { self with records_ := self.records_ ++ [r], scroll_to_bottom_ := true } ∧
      r.message_ = rest := by
  have hp' : msg.payload = '[' :: (a ++ ':' :: ([] ++ ']' :: c :: rest)) := by
    rw [hp]
    simp
  obtain ⟨r, hr, hmsg, -⟩ := sink_it__tag env self msg a [] rest c hl ha
    (fun x hx => absurd hx (List.not_mem_nil x)) hp' hsize
  exact ⟨r, hr, hmsg⟩

/-- C27 at the payload `[note:] x`. -/
theorem sink_it__accepts_tag_without_digits_witness :
    ∃ r : LogRecord,
      (sample_sink true true true true).sink_it_ (sample_env false)
          (sample_msg .info "[note:] x") =
        .ok { sample_sink true true true true with
              records_ := (sample_sink true true true true).records_ ++ [r],
              scroll_to_bottom_ := true } ∧
      r.message_ = "x".toList :=
  sink_it__accepts_tag_without_digits (sample_env false) (sample_sink true true true true)
    (sample_msg .info "[note:] x") "note".toList "x".toList ' '
    (by decide) (by decide) rfl (by decide)

/-! ## Claims on `Font` -/

/-- C28: a copy-constructed `Font` has an empty family, and a copy-assigned one keeps the
family of the target: neither takes the family of the font copied. For the Inconsolata
font of `Draw`, `Bold` on the font itself builds the name `Inconsolata Bold 13px` and
finds font 2; on a copy-constructed copy it builds ` Bold 13px`, which no font is
registered under, and falls back to the current font of Dear ImGui; on a copy assigned
to a Roboto font it builds `Roboto Bold 13px`. -/
theorem Font_copy_loses_family (theme : Theme) (f g : Font) :
    (Font.copy f).family_ = [] ∧
    (Font.assign g f).family_ = g.family_ ∧
    Font.Bold theme (Font.copy f) = Font.Bold theme { f with family_ := [] } ∧
    Font.Bold theme (Font.assign g f) = Font.Bold theme { f with family_ := g.family_ } ∧
    ({ sample_font with weight_ := .BOLD } : Font).BuildName.name_
      = "Inconsolata Bold 13px".toList ∧
    ({ Font.copy sample_font with weight_ := .BOLD } : Font).BuildName.name_
      = " Bold 13px".toList ∧
    ({ Font.assign { sample_font with family_ := "Roboto".toList } sample_font with
        weight_ := .BOLD } : Font).BuildName.name_ = "Roboto Bold 13px".toList ∧
    (Font.Bold sample_theme sample_font).font_ = 2 ∧
    (Font.Bold sample_theme (Font.copy sample_font)).font_ = 0 :=
  ⟨rfl, rfl, rfl, rfl, rfl, rfl, rfl, rfl, rfl⟩

/-! ## Claims on the display filter -/

/-- What the body of the loop emits for a record, in full: the font weight is the
emphasis of the record; without a range start the properties are one text, coloured
when `color_range_end_` is 1, and with a range start they are the three parts cut by
`substr`, the middle one coloured; the text for the message follows. -/
theorem draw_record_calls (asserts : Bool) (r : LogRecord) (g : DrawnGroup)
    (h : draw_record asserts r = .ok g) :
    g.bold = r.emphasis_ ∧
    (r.color_range_start_ = 0 →
      g.calls =
        [if r.color_range_end_ = 1 then DrawCall.TextColored r.color_ (c_str r.properties_)
         else DrawCall.TextUnformatted (c_str r.properties_),
         if r.color_range_end_ = 1 then DrawCall.TextColored r.color_ (c_str r.message_)
         else DrawCall.TextUnformatted (c_str r.message_)]) ∧
    (0 < r.color_range_start_ →
      ∃ part1 part2 part3 : List Char,
        substr r.properties_ 0 r.color_range_start_ = .ok part1 ∧
        substr r.properties_ r.color_range_start_
          (to_size_t ((r.color_range_end_ : Int) - r.color_range_start_)) = .ok part2 ∧
        substr r.properties_ r.color_range_end_
          (to_size_t ((r.properties_.length : Int) - r.color_range_end_)) = .ok part3 ∧
        g.calls =
          [DrawCall.TextUnformatted (c_str part1),
           DrawCall.TextColored r.color_ (c_str part2),
           DrawCall.TextUnformatted (c_str part3),
           if r.color_range_end_ = 1 then DrawCall.TextColored r.color_ (c_str r.message_)
           else DrawCall.TextUnformatted (c_str r.message_)]) := by
  unfold draw_record at h
  dsimp only at h
  split at h
  · rename_i hpos
    obtain ⟨_, -, h⟩ := bind_returns _ _ _ h
    obtain ⟨_, -, h⟩ := bind_returns _ _ _ h
    obtain ⟨_, -, h⟩ := bind_returns _ _ _ h
    obtain ⟨part1, h1, h⟩ := bind_returns _ _ _ h
    obtain ⟨part2, h2, h⟩ := bind_returns _ _ _ h
    obtain ⟨part3, h3, h⟩ := bind_returns _ _ _ h
    simp only [pure, Except.pure, bind, Except.bind, Except.ok.injEq] at h
    subst h
    refine ⟨rfl, fun h0 => ?_, fun _ => ⟨part1, part2, part3, h1, h2, h3, rfl⟩⟩
    omega
  · rename_i hpos
    split at h
    · rename_i he
      simp only [pure, Except.pure, bind, Except.bind, Except.ok.injEq] at h
      subst h
      refine ⟨rfl, fun _ => by simp [he], fun h0 => ?_⟩
      omega
    · rename_i he
      simp only [pure, Except.pure, bind, Except.bind, Except.ok.injEq] at h
      subst h
      refine ⟨rfl, fun _ => by simp [he], fun h0 => ?_⟩
      omega

/-- C17: the record loop of `Draw` displays a record exactly when the filter is inactive
or its match predicate accepts the properties, the source or the message of the record.
The records the loop yields are those records of the store, in the order of the store,
and all the records of the store when the filter is inactive; for each of them the
loop has emitted the texts of the record: the properties, as one text or as the three
parts around the colour range, and then the message, in the font weight of the
emphasis; a record that does not pass has no entry and so no text. The loop returns
when its body returns on every record of the store. -/
theorem Draw_display_filter (asserts : Bool) (display_filter_ : ImGuiTextFilter)
    (self : ImGuiLogSink) :
    (∀ out, self.Draw asserts display_filter_ = .ok out →
      out.map (fun p => p.1) = self.records_.filter fun r =>
        !display_filter_.IsActive || display_filter_.PassFilter r.properties_ ||
          display_filter_.PassFilter r.source_ || display_filter_.PassFilter r.message_) ∧
    (∀ out, self.Draw asserts display_filter_ = .ok out →
      display_filter_.IsActive = false → out.map (fun p => p.1) = self.records_) ∧
    (∀ out, self.Draw asserts display_filter_ = .ok out → ∀ p ∈ out,
      p.2.bold = p.1.emphasis_ ∧
      (p.1.color_range_start_ = 0 →
        p.2.calls =
          [if p.1.color_range_end_ = 1 then
             DrawCall.TextColored p.1.color_ (c_str p.1.properties_)
           else DrawCall.TextUnformatted (c_str p.1.properties_),
           if p.1.color_range_end_ = 1 then
             DrawCall.TextColored p.1.color_ (c_str p.1.message_)
           else DrawCall.TextUnformatted (c_str p.1.message_)]) ∧
      (0 < p.1.color_range_start_ →
        ∃ part1 part2 part3 : List Char,
          substr p.1.properties_ 0 p.1.color_range_start_ = .ok part1 ∧
          substr p.1.properties_ p.1.color_range_start_
            (to_size_t ((p.1.color_range_end_ : Int) - p.1.color_range_start_))
            = .ok part2 ∧
          substr p.1.properties_ p.1.color_range_end_
            (to_size_t ((p.1.properties_.length : Int) - p.1.color_range_end_))
            = .ok part3 ∧
          p.2.calls =
            [DrawCall.TextUnformatted (c_str part1),
             DrawCall.TextColored p.1.color_ (c_str part2),
             DrawCall.TextUnformatted (c_str part3),
             if p.1.color_range_end_ = 1 then
               DrawCall.TextColored p.1.color_ (c_str p.1.message_)
             else DrawCall.TextUnformatted (c_str p.1.message_)])) ∧
    ((∀ r ∈ self.records_, ∃ g, draw_record asserts r = .ok g) →
      ∃ out, self.Draw asserts display_filter_ = .ok out) := by
  refine ⟨?_, ?_, ?_, ?_⟩
  · intro out h
    exact draw_records_visits asserts display_filter_ self.records_ out h
  · intro out h hi
    rw [draw_records_visits asserts display_filter_ self.records_ out h]
    simp [hi]
  · intro out h p hp
    exact draw_record_calls asserts p.1 p.2
      (draw_records_groups asserts display_filter_ self.records_ out h p hp)
  · intro h
    exact draw_records_returns asserts display_filter_ self.records_ h

/-- C17 at the sample store with the filter text `disk`, which only the source of the
second record holds: the loop displays that record and no other, emitting its properties
and its message, both in `COLOR_WARN`; with the filter text `net` it displays the first
and the third record, the level tag of each as the coloured middle of three parts. -/
theorem Draw_display_filter_witness :
    (∃ out, sample_store.Draw true (sample_filter "disk") = .ok out ∧
      out.map (fun p => p.1.source_) = ["disk.cpp:7".toList] ∧
      out.map (fun p => p.2) =
        [{ bold := false
           calls :=
            [DrawCall.TextColored COLOR_WARN "[01/01/19 00:00:00 UTC] [7] [W] [main] ".toList,
             DrawCall.TextColored COLOR_WARN "nearly full".toList] }]) ∧
    (∃ out, sample_store.Draw true (sample_filter "net") = .ok out ∧
      out.map (fun p => p.1.source_) = ["net.cpp:10".toList, "net.cpp:12".toList] ∧
      out.map (fun p => p.2.calls) =
        [[DrawCall.TextUnformatted "[01/01/19 00:00:00 UTC] [7] ".toList,
          DrawCall.TextColored ((sample_env false).GetStyleColorVec4 .NavHighlight)
            "[I] ".toList,
          DrawCall.TextUnformatted "[main] ".toList,
          DrawCall.TextUnformatted "connected".toList],
         [DrawCall.TextUnformatted "[01/01/19 00:00:00 UTC] [7] ".toList,
          DrawCall.TextColored ((sample_env false).GetStyleColorVec4 .Text) "[D] ".toList,
          DrawCall.TextUnformatted "[main] ".toList,
          DrawCall.TextUnformatted "sent".toList]]) := by
  constructor
  · have hrun : ∃ out, sample_store.Draw true (sample_filter "disk") = .ok out :=
      ⟨_, rfl⟩
    obtain ⟨out, hout⟩ := hrun
    obtain ⟨hvis, -, hcalls, -⟩ := Draw_display_filter true (sample_filter "disk") sample_store
    have h := hvis out hout
    have hfil : out.map (fun p => p.1) = [sample_store.records_.get ⟨1, by decide⟩] :=
      h.trans rfl
    refine ⟨out, hout, ?_, ?_⟩
    · have := congrArg (List.map LogRecord.source_) hfil
      simpa using this.trans rfl
    · match out, hfil, hcalls out hout with
      | [p], hfil, hc =>
        obtain ⟨hb, h0, -⟩ := hc p (List.mem_singleton.mpr rfl)
        have hp1 : p.1 = sample_store.records_.get ⟨1, by decide⟩ := by
          simpa using hfil
        have hcalls' := h0 (hp1 ▸ rfl)
        rw [hp1] at hb hcalls'
        have hg : p.2 = { bold := p.2.bold, calls := p.2.calls } := rfl
        simp only [List.map_cons, List.map_nil]
        rw [hg, hb, hcalls']
        rfl
  · have hrun : ∃ out, sample_store.Draw true (sample_filter "net") = .ok out ∧
        out.map (fun p => p.2.calls) =
        [[DrawCall.TextUnformatted "[01/01/19 00:00:00 UTC] [7] ".toList,
          DrawCall.TextColored ((sample_env false).GetStyleColorVec4 .NavHighlight)
            "[I] ".toList,
          DrawCall.TextUnformatted "[main] ".toList,
          DrawCall.TextUnformatted "connected".toList],
         [DrawCall.TextUnformatted "[01/01/19 00:00:00 UTC] [7] ".toList,
          DrawCall.TextColored ((sample_env false).GetStyleColorVec4 .Text) "[D] ".toList,
          DrawCall.TextUnformatted "[main] ".toList,
          DrawCall.TextUnformatted "sent".toList]] :=
      ⟨_, rfl, rfl⟩
    obtain ⟨out, hout, hc⟩ := hrun
    have h := (Draw_display_filter true (sample_filter "net") sample_store).1 out hout
    refine ⟨out, hout, ?_, hc⟩
    have := congrArg (List.map LogRecord.source_) h
    simpa using this.trans rfl

end asap.ui
